import Mathlib

/-!
Verification of the narrative audio playback orchestrator of the Tallo
storybook application.  The definitions below are shallow embeddings of the
TypeScript source files:

* `src/UI/lib/store.ts` — the Zustand store (`addMessage`, `setCurrentPage`).
* `src/UI/app/page.tsx` — top-level handlers (`handleStartStory`,
  `handleNextPage`, `handlePreviousPage`, `onPageAudioEnded`,
  `onSendMessage`, `onTTSComplete`).
* `src/UI/components/ChatPanel.tsx` — the chat TTS queue
  (`processTTSQueue`, the enqueue effect).
* `src/unnamed/part_007` (`StoryBookPanel`) — per-page narration playback
  (`playPageAudio`, `stopAudio`, the `audioMap` rebuild effect).

JavaScript truthiness on string fields (`if (page.audio_url)`) is modelled
by `Option String` together with an emptiness check, so that both `null`,
`undefined` and the empty string count as "absent".
-/

namespace Tallo

/-! ## Data model -/

/-- A story page as carried in `selectedStory.pages` / `storyPages`:
`{ page: number, text: string, audio_url?: string | null }`. -/
structure StoryPageData where
  page : Nat
  text : String
  audio_url : Option String
deriving Repr, DecidableEq

/-- JavaScript truthiness of the `audio_url` field: `null`/`undefined` and
the empty string are falsy. -/
def hasAudio (d : StoryPageData) : Bool :=
  match d.audio_url with
  | some u => u ≠ ""
  | none => false

/-- `pages.find(p => p.page === n)` — first page with the given number. -/
def findPage (n : Nat) : List StoryPageData → Option StoryPageData
  | [] => none
  | d :: rest => if d.page = n then some d else findPage n rest

/-- First association for a page number in a `Record<number, string>`-style
list (used for `audioMap`, `existing_audio`, `generated_pages`). -/
def findUrl (n : Nat) : List (Nat × String) → Option String
  | [] => none
  | e :: rest => if e.1 = n then some e.2 else findUrl n rest

/-- JavaScript `s.startsWith(pre)`, expressed over the character data so
that it evaluates inside the kernel. -/
def strStartsWith (s pre : String) : Bool :=
  pre.data.isPrefixOf s.data

/-! ## Message store (`src/UI/lib/store.ts`) -/

/-- Message author, the `type` field of a chat message. -/
inductive MsgType where
  | user
  | character
deriving Repr, DecidableEq

/-- A chat message held in `state.messages` (the timestamp is irrelevant to
every claim and omitted). -/
structure Message where
  id : Nat
  type : MsgType
  text : String
deriving Repr, DecidableEq

/-- `Math.max(...state.messages.map(m => m.id))`, folded with 0 so that the
empty list gives the same value as the explicit `: 0` branch of the code. -/
def maxMsgId (msgs : List Message) : Nat :=
  msgs.foldl (fun a m => max a m.id) 0

/-- `addMessage` from `store.ts`: compute `lastId` as the maximum existing
id (or 0 when the list is empty), append one message with id `lastId + 1`
and return that id. -/
def addMessage (msgs : List Message) (ty : MsgType) (text : String) :
    Nat × List Message :=
  let lastId := if msgs.isEmpty then 0 else maxMsgId msgs
  let newId := lastId + 1
  (newId, msgs ++ [⟨newId, ty, text⟩])

/-- The page slot of the store.  `setCurrentPage` is the only mutation of
`currentPage` in `store.ts`. -/
structure StoreNavState where
  currentPage : Nat
deriving Repr, DecidableEq

/-- `setCurrentPage: (page) => set({ currentPage: page })` — the argument is
stored verbatim. -/
def setCurrentPage (s : StoreNavState) (page : Nat) : StoreNavState :=
  { s with currentPage := page }

/-- Navigation operations of `page.tsx` that reach `setCurrentPage`:
`handleNextPage`, `handlePreviousPage`, and the page-1 resets performed by
`handleCharacterSelect`, `handleStorySelect` and `handleStartStory`. -/
inductive NavEvent where
  | next
  | previous
  | reset
deriving Repr, DecidableEq

/-- One navigation step.  `handleNextPage` advances only when
`currentPage < selectedStory.pages.length`; `handlePreviousPage` goes back
only when `currentPage > 1`; the selection handlers call
`setCurrentPage(1)`. -/
def navStep (total : Nat) (s : StoreNavState) : NavEvent → StoreNavState
  | .next => if s.currentPage < total then setCurrentPage s (s.currentPage + 1) else s
  | .previous => if s.currentPage > 1 then setCurrentPage s (s.currentPage - 1) else s
  | .reset => setCurrentPage s 1

/-- Run a sequence of navigation operations. -/
def runNav (total : Nat) (s : StoreNavState) : List NavEvent → StoreNavState
  | [] => s
  | e :: rest => runNav total (navStep total s e) rest

/-! ## Audio URL resolution (`playPageAudio`, `src/unnamed/part_007`) -/

/-- URL normalization used in `playPageAudio`: URLs starting with `http`
pass through, paths starting with `/` get `API_BASE_URL` prepended, any
other relative path gets `API_BASE_URL` plus `/` prepended. -/
def normalizeAudioUrl (base url : String) : String :=
  if strStartsWith url "http" then url
  else if strStartsWith url "/" then base ++ url
  else base ++ "/" ++ url

/-- The pure audio-resolution core of `playPageAudio`: try
`targetPageData.audio_url` (truthy check, normalized), then
`audioMap[targetPage]` (truthy check, stored already normalized), else
`none`, in which case the function logs "generating" and returns without
playing anything. -/
def resolvePageAudio (pageAudioUrl : Option String) (cache : List (Nat × String))
    (page : Nat) (base : String) : Option String :=
  let fromPage : Option String :=
    match pageAudioUrl with
    | some u => if u = "" then none else some (normalizeAudioUrl base u)
    | none => none
  match fromPage with
  | some u => some u
  | none =>
    match findUrl page cache with
    | some c => if c = "" then none else some c
    | none => none

end Tallo

namespace Tallo

/-! ## Narration playback outcome (`playPageAudio`, `src/unnamed/part_007`) -/

/-- Observable callbacks emitted by `playPageAudio`:
`onPageAudioStart` fires just before the byte fetch, `onPageAudioEnded`
fires only from the `audio.onended` handler. -/
inductive NarrEvent where
  | pageAudioStart (p : Nat)
  | pageAudioEnded (p : Nat)
deriving Repr, DecidableEq

/-- The sequence of callbacks one `playPageAudio(page)` invocation emits,
as a function of the resolution inputs and of two oracles: whether the
audio byte fetch succeeds (`response.ok`, no thrown error) and whether the
created audio element reaches `onended` (rather than `onerror`).  A failed
fetch is caught, logged and dropped; `onerror` cleans up without calling
`onPageAudioEnded`; neither path retries. -/
def narrationRun (page : Nat) (pageAudioUrl : Option String)
    (cache : List (Nat × String)) (base : String)
    (fetchOk playCompletes : Bool) : List NarrEvent :=
  match resolvePageAudio pageAudioUrl cache page base with
  | none => []
  | some _ =>
    NarrEvent.pageAudioStart page ::
      (if fetchOk then
        (if playCompletes then [NarrEvent.pageAudioEnded page] else [])
      else [])

/-! ## End-of-narration routing (`onPageAudioEnded`, `src/UI/app/page.tsx`) -/

/-- The routing decision taken by the `onPageAudioEnded` handler. -/
inductive Route where
  | requestClosing (seed : String)
  | openConversation (page : Nat)
  | advanceTo (page : Nat)
  | stay
deriving Repr, DecidableEq

/-- `selectedStory.pages?.map(p => p.text).join(' ')` — the closing remark
is seeded with the space-joined concatenation of all page texts. -/
def joinPageTexts (pages : List StoryPageData) : String :=
  String.intercalate " " (pages.map (·.text))

/-- The fixed routing policy of the `onPageAudioEnded` handler for a story
whose `pages` array is present and non-empty: the final page requests the
closing remark and returns; an even page looks its data up and requests a
question only when the page text is truthy (otherwise nothing happens); an
odd page advances to `page + 1` when that stays within bounds. -/
def routeOnPageAudioEnded (page : Nat) (pages : List StoryPageData) : Route :=
  let total := pages.length
  if page = total then
    Route.requestClosing (joinPageTexts pages)
  else if page % 2 = 0 then
    match findPage page pages with
    | some d => if d.text ≠ "" then Route.openConversation page else Route.stay
    | none => Route.stay
  else
    if page + 1 ≤ total then Route.advanceTo (page + 1) else Route.stay

/-- Executable well-formedness of a pages array: every page number from 1
to `pages.length` is found by `findPage` and carries non-empty text. -/
def wellFormedPages (pages : List StoryPageData) : Bool :=
  (List.range pages.length).all fun i =>
    match findPage (i + 1) pages with
    | some d => d.text ≠ ""
    | none => false

/-! ## Chat TTS queue (`src/UI/components/ChatPanel.tsx`) -/

/-- The refs backing the queue: `ttsQueueRef`, `lastProcessedMessageIdRef`
(initially `-1`, hence `Int`) and `isProcessingQueueRef`. -/
structure TTSQueueState where
  ttsQueue : List (Nat × String)
  lastProcessedId : Int
  isProcessingQueue : Bool
deriving Repr, DecidableEq

/-- `ttsQueueRef.current.some(q => q.id === msg.id)`. -/
def inQueue (id : Nat) (q : List (Nat × String)) : Bool :=
  q.any fun e => e.1 = id

/-- The enqueue effect of `ChatPanel`: a message is pushed to the tail of
`ttsQueueRef` only when its id is greater than `lastProcessedMessageIdRef`
(the filter `msg.id > lastProcessedMessageIdRef.current`) and the id is not
already in the queue. -/
def enqueueTTS (s : TTSQueueState) (id : Nat) (text : String) : TTSQueueState :=
  if (id : Int) ≤ s.lastProcessedId then s
  else if inQueue id s.ttsQueue then s
  else { s with ttsQueue := s.ttsQueue ++ [(id, text)] }

/-- Observable events of `processTTSQueue`: the synthesis request, audio
playback start, the `onended` handler, the catch branch, and the
`onTTSComplete` per-id signal. -/
inductive QEvent where
  | synthStart (id : Nat)
  | playStart (id : Nat)
  | playEnd (id : Nat)
  | synthFail (id : Nat)
  | signal (id : Nat)
deriving Repr, DecidableEq

/-- The events one queue entry produces in `processTTSQueue`, given an
oracle saying whether its synthesis-plus-`play()` call succeeds.  On
success, `onended` later fires and calls `onTTSComplete` before recursing;
on failure, the catch branch marks the id processed and recurses without
emitting `onTTSComplete`. -/
def entryTrace (ok : Nat → Bool) (e : Nat × String) : List QEvent :=
  if ok e.1 then
    [QEvent.synthStart e.1, QEvent.playStart e.1, QEvent.playEnd e.1, QEvent.signal e.1]
  else
    [QEvent.synthStart e.1, QEvent.synthFail e.1]

/-- Full drain of the queue: `processTTSQueue` shifts the head, handles it,
and recurses until the queue is empty. -/
def drainTrace (ok : Nat → Bool) : List (Nat × String) → List QEvent
  | [] => []
  | e :: rest => entryTrace ok e ++ drainTrace ok rest

/-- The ids marked processed, in order: both the `onended` handler and the
catch branch assign `lastProcessedMessageIdRef.current` before recursing. -/
def processedIds (t : List QEvent) : List Nat :=
  t.filterMap fun e =>
    match e with
    | QEvent.playEnd i => some i
    | QEvent.synthFail i => some i
    | _ => none

/-! ## Conversation session (`onSendMessage` / `onTTSComplete`,
`src/UI/app/page.tsx`) -/

/-- Which prompt `onSendMessage` builds for the LLM round-trip. -/
inductive PromptKind where
  | followup
  | resumeStory
  | general
deriving Repr, DecidableEq

/-- The refs of the conversation flow: `conversationCountRef` and
`currentQuestionRef` are per-page records, `closingMessageIdRef` a single
slot, and the chat transcript lives in the store. -/
structure ConvState where
  messages : List Message
  convCounts : List (Nat × Nat)
  questions : List (Nat × String)
  closingMsgId : Option Nat
deriving Repr, DecidableEq

/-- `conversationCountRef.current[page] || 0`. -/
def getCount (page : Nat) (l : List (Nat × Nat)) : Nat :=
  match l with
  | [] => 0
  | e :: rest => if e.1 = page then e.2 else getCount page rest

/-- `ref.current[page] = v` on an association list. -/
def setAssoc (page : Nat) (v : α) : List (Nat × α) → List (Nat × α)
  | [] => [(page, v)]
  | e :: rest => if e.1 = page then (page, v) :: rest else e :: setAssoc page v rest

/-- `delete ref.current[page]` on an association list. -/
def removeAssoc (page : Nat) : List (Nat × α) → List (Nat × α)
  | [] => []
  | e :: rest => if e.1 = page then removeAssoc page rest else e :: removeAssoc page rest

/-- `currentQuestionRef.current[page]` with JavaScript truthiness. -/
def getQuestion (page : Nat) (l : List (Nat × String)) : Option String :=
  match findUrl page l with
  | some q => if q = "" then none else some q
  | none => none

/-- What one `onSendMessage` run produced, beyond the new state. -/
structure SendResult where
  state : ConvState
  prompt : PromptKind
  exchangeCount : Option Nat
  replyMsgId : Option Nat
deriving Repr, DecidableEq

/-- `onSendMessage(text)` for the current page: append the user message;
when the page is even and a question is pending, pick the prompt by
`conversationCount` (0 means acknowledge-plus-followup, otherwise
acknowledge-plus-resume), append the LLM reply, bump the counter, and when
the new count reaches 2 record the reply id in `closingMessageIdRef`, reset
the counter and delete the question; otherwise run a general chat.  `reply`
is `some` of the LLM text on success and `none` when the round-trip throws
(the apology branch). -/
def onSendMessage (s : ConvState) (currentPage : Nat) (text : String)
    (reply : Option String) : SendResult :=
  let msgs1 := (addMessage s.messages MsgType.user text).2
  let isQuestionPage := currentPage % 2 = 0
  match getQuestion currentPage s.questions with
  | some _ =>
    if isQuestionPage then
      match reply with
      | some replyText =>
        let conversationCount := getCount currentPage s.convCounts
        let prompt := if conversationCount = 0 then PromptKind.followup
                      else PromptKind.resumeStory
        let r := addMessage msgs1 MsgType.character replyText
        let newCount := conversationCount + 1
        if newCount ≥ 2 then
          { state :=
              { messages := r.2
                convCounts := setAssoc currentPage 0 s.convCounts
                questions := removeAssoc currentPage s.questions
                closingMsgId := some r.1 }
            prompt := prompt
            exchangeCount := some newCount
            replyMsgId := some r.1 }
        else
          { state :=
              { messages := r.2
                convCounts := setAssoc currentPage newCount s.convCounts
                questions := s.questions
                closingMsgId := s.closingMsgId }
            prompt := prompt
            exchangeCount := some newCount
            replyMsgId := some r.1 }
      | none =>
        { state := { s with messages := (addMessage msgs1 MsgType.character "죄송해요, 답변을 생성하는데 문제가 생겼어요.").2 }
          prompt := if getCount currentPage s.convCounts = 0 then PromptKind.followup
                    else PromptKind.resumeStory
          exchangeCount := none
          replyMsgId := none }
    else
      match reply with
      | some replyText =>
        { state := { s with messages := (addMessage msgs1 MsgType.character replyText).2 }
          prompt := PromptKind.general
          exchangeCount := none
          replyMsgId := some (addMessage msgs1 MsgType.character replyText).1 }
      | none =>
        { state := { s with messages := (addMessage msgs1 MsgType.character "죄송해요, 답변을 생성하는데 문제가 생겼어요.").2 }
          prompt := PromptKind.general
          exchangeCount := none
          replyMsgId := none }
  | none =>
    match reply with
    | some replyText =>
      { state := { s with messages := (addMessage msgs1 MsgType.character replyText).2 }
        prompt := PromptKind.general
        exchangeCount := none
        replyMsgId := some (addMessage msgs1 MsgType.character replyText).1 }
    | none =>
      { state := { s with messages := (addMessage msgs1 MsgType.character "죄송해요, 답변을 생성하는데 문제가 생겼어요.").2 }
        prompt := PromptKind.general
        exchangeCount := none
        replyMsgId := none }

/-- `onTTSComplete(messageId)`: when the completed message is the tracked
closing message, clear the slot and (after a timeout) call
`handleNextPage` — reported here as the returned flag. -/
def onTTSCompleteStep (s : ConvState) (msgId : Nat) : ConvState × Bool :=
  if s.closingMsgId = some msgId then
    ({ s with closingMsgId := none }, true)
  else
    (s, false)

/-- Triggers of the conversation flow: `onPageAudioEnded` opening a new
question on an even page (`conversationCountRef.current[page] = 0` followed
by `currentQuestionRef.current[page] = text`), a `submitAnswer` via
`onSendMessage`, and a TTS completion. -/
inductive ConvEvent where
  | questionOpened (page : Nat) (question : String)
  | send (page : Nat) (text : String) (reply : Option String)
  | ttsDone (msgId : Nat)
deriving Repr, DecidableEq

/-- One conversation-system step. -/
def convStep (s : ConvState) : ConvEvent → ConvState
  | .questionOpened page q =>
    { s with convCounts := setAssoc page 0 s.convCounts
             questions := setAssoc page q s.questions }
  | .send page text reply => (onSendMessage s page text reply).state
  | .ttsDone msgId => (onTTSCompleteStep s msgId).1

/-- Initial conversation state: empty transcript and empty refs. -/
def convInit : ConvState :=
  { messages := [], convCounts := [], questions := [], closingMsgId := none }

/-- Run a sequence of conversation events. -/
def runConv (s : ConvState) : List ConvEvent → ConvState
  | [] => s
  | e :: rest => runConv (convStep s e) rest

/-! ## Audio-URL cache merges (`handleStartStory`, `src/UI/app/page.tsx`;
`audioMap` rebuild effect, `StoryBookPanel` in `src/unnamed/part_007`) -/

/-- The per-page callback of step 1 of `handleStartStory`: a local
existence-check entry is applied only when its `audio_url` is truthy. -/
def localMergePage (existing : List (Nat × String)) (page : StoryPageData) :
    StoryPageData :=
  match findUrl page.page existing with
  | some u => if u ≠ "" then { page with audio_url := some u } else page
  | none => page

/-- Step 1 of `handleStartStory`: map the local existence-check result onto
the pages. -/
def localAudioMerge (pages : List StoryPageData) (existing : List (Nat × String)) :
    List StoryPageData :=
  pages.map (localMergePage existing)

/-- URL normalization as written inline in `handleStartStory` (steps 2 and
3): leading `/` gets the base prepended, anything not starting with `http`
gets base plus `/`, otherwise pass through. -/
def normalizeStartStory (base u : String) : String :=
  if strStartsWith u "/" then base ++ u
  else if !(strStartsWith u "http") then base ++ "/" ++ u
  else u

/-- The per-page callback of step 2 of `handleStartStory`: a page that
already has a truthy `audio_url` is kept unchanged, otherwise a truthy
server entry is normalized and applied. -/
def serverMergePage (base : String) (serverAudio : List (Nat × String))
    (page : StoryPageData) : StoryPageData :=
  if hasAudio page then page
  else
    match findUrl page.page serverAudio with
    | some u =>
      if u ≠ "" then { page with audio_url := some (normalizeStartStory base u) }
      else page
    | none => page

/-- Step 2 of `handleStartStory`: map the Colab-server check onto the
pages. -/
def serverAudioMerge (base : String) (pages : List StoryPageData)
    (serverAudio : List (Nat × String)) : List StoryPageData :=
  pages.map (serverMergePage base serverAudio)

/-- The per-page callback of step 3 of `handleStartStory` (the code is a
verbatim copy of the server-merge loop, applied to the generation
results). -/
def genMergePage (base : String) (generated : List (Nat × String))
    (page : StoryPageData) : StoryPageData :=
  if hasAudio page then page
  else
    match findUrl page.page generated with
    | some u =>
      if u ≠ "" then { page with audio_url := some (normalizeStartStory base u) }
      else page
    | none => page

/-- Step 3 of `handleStartStory`: map the generation results onto the
pages. -/
def generatedAudioMerge (base : String) (pages : List StoryPageData)
    (generated : List (Nat × String)) : List StoryPageData :=
  pages.map (genMergePage base generated)

/-- URL normalization of the `audioMap` rebuild effect in
`StoryBookPanel`: leading `/` gets the base prepended, `http` passes
through, anything else gets base plus `/`. -/
def normalizePanel (base u : String) : String :=
  if strStartsWith u "/" then base ++ u
  else if strStartsWith u "http" then u
  else base ++ "/" ++ u

/-- The per-page contribution to the `urls` record of the rebuild effect:
an entry exists exactly for a truthy `audio_url`, normalized. -/
def rebuildEntry (base : String) (page : StoryPageData) : Option (Nat × String) :=
  match page.audio_url with
  | some u => if u ≠ "" then some (page.page, normalizePanel base u) else none
  | none => none

/-- The `urls` record the rebuild effect computes from the pages prop. -/
def rebuildAudioMap (base : String) (pages : List StoryPageData) :
    List (Nat × String) :=
  pages.filterMap (rebuildEntry base)

/-- The cache system state: the story pages (the audio fields of
`selectedStory.pages`) and the panel `audioMap`. -/
structure CacheSysState where
  pages : List StoryPageData
  audioMap : List (Nat × String)
deriving Repr, DecidableEq

/-- Resolution-merge events named by the claim: the local file check, the
remote server check, the generation results, and the panel `audioMap`
rebuild. -/
inductive CacheEvent where
  | localCheck (existing : List (Nat × String))
  | serverCheck (serverAudio : List (Nat × String))
  | genResults (generated : List (Nat × String))
  | rebuildMap
deriving Repr, DecidableEq

/-- One cache-system step.  The rebuild replaces `audioMap` wholesale, but
only when the computed record is non-empty
(`if (Object.keys(urls).length > 0) setAudioMap(urls)`). -/
def cacheStep (base : String) (s : CacheSysState) : CacheEvent → CacheSysState
  | .localCheck existing => { s with pages := localAudioMerge s.pages existing }
  | .serverCheck serverAudio => { s with pages := serverAudioMerge base s.pages serverAudio }
  | .genResults generated => { s with pages := generatedAudioMerge base s.pages generated }
  | .rebuildMap =>
    let urls := rebuildAudioMap base s.pages
    if urls.length > 0 then { s with audioMap := urls } else s

/-- Run a sequence of cache events. -/
def runCache (base : String) (s : CacheSysState) : List CacheEvent → CacheSysState
  | [] => s
  | e :: rest => runCache base (cacheStep base s e) rest

/-- Whether the page numbered `p` currently stores a truthy audio URL. -/
def pageHasAudioAt (p : Nat) (pages : List StoryPageData) : Bool :=
  match findPage p pages with
  | some d => hasAudio d
  | none => false

/-! ## Global audio-resource system (C1): narration (`StoryBookPanel`)
and the chat TTS queue (`ChatPanel`) together -/

/-- Which component created a playable resource. -/
inductive AudioOwner where
  | story
  | chat
deriving Repr, DecidableEq

/-- The audio-resource state of the whole orchestrator: the multiset of
currently playing audio elements (owner and element id), the
`audioRef` of `StoryBookPanel`, the narration fetches currently in flight
(invocations of `playPageAudio` that have paused the previous element but
whose awaited `fetch`/`blob` calls have not yet reached `audio.play()`),
the `audioRef` of `ChatPanel`, and `isProcessingQueueRef`. -/
structure AudioSysState where
  playing : List (AudioOwner × Nat)
  storyAudioRef : Option Nat
  inflight : List Nat
  chatAudioRef : Option Nat
  isProcessingQueue : Bool
deriving Repr, DecidableEq

/-- Pausing a specific audio element: remove it from the playing set. -/
def removePlaying (owner : AudioOwner) (id : Nat) (l : List (AudioOwner × Nat)) :
    List (AudioOwner × Nat) :=
  l.filter fun e => !(e.1 = owner ∧ e.2 = id : Bool)

/-- Trigger events that start or stop audio anywhere in the orchestrator.
`playPageAudio` is not atomic: its synchronous prefix (`storyInvoke`)
pauses and clears `audioRef.current` and launches the byte fetch; only
after the awaited `fetch`/`blob` calls does it set `audioRef` to the new
element and call `audio.play()` (`storyPlayOk`), or give up on a fetch
error (`storyFetchFail`).  `storyStop` is `stopStoryAudio` (pauses only
the element currently in `audioRef`); `storyEnded r` is element r's own
`onended` handler, which fires also for elements no longer referenced;
`chatStart` is `processTTSQueue` reaching `audio.play()` (guarded by
`isProcessingQueueRef`, which is checked and set synchronously before any
await, pausing nothing); `chatEnded` is the chat audio `onended`. -/
inductive AudioEvent where
  | storyInvoke (r : Nat)
  | storyPlayOk (r : Nat)
  | storyFetchFail (r : Nat)
  | storyStop
  | storyEnded (r : Nat)
  | chatStart (r : Nat)
  | chatEnded
deriving Repr, DecidableEq

/-- One audio-system step, following the source of `playPageAudio`,
`stopAudio` and `processTTSQueue`. -/
def audioStep (s : AudioSysState) : AudioEvent → AudioSysState
  | .storyInvoke r =>
    let cleared :=
      match s.storyAudioRef with
      | some old => removePlaying AudioOwner.story old s.playing
      | none => s.playing
    { s with playing := cleared, storyAudioRef := none, inflight := r :: s.inflight }
  | .storyPlayOk r =>
    if r ∈ s.inflight then
      { s with playing := (AudioOwner.story, r) :: s.playing
               storyAudioRef := some r
               inflight := s.inflight.erase r }
    else s
  | .storyFetchFail r =>
    if r ∈ s.inflight then { s with inflight := s.inflight.erase r } else s
  | .storyStop =>
    match s.storyAudioRef with
    | some old =>
      { s with playing := removePlaying AudioOwner.story old s.playing
               storyAudioRef := none }
    | none => s
  | .storyEnded r =>
    { s with playing := removePlaying AudioOwner.story r s.playing }
  | .chatStart r =>
    if s.isProcessingQueue then s
    else
      { s with playing := (AudioOwner.chat, r) :: s.playing
               chatAudioRef := some r
               isProcessingQueue := true }
  | .chatEnded =>
    match s.chatAudioRef with
    | some old =>
      { s with playing := removePlaying AudioOwner.chat old s.playing
               chatAudioRef := none
               isProcessingQueue := false }
    | none => s

/-- Initial audio-system state: nothing playing, no fetch in flight, no
refs, queue idle. -/
def audioInit : AudioSysState :=
  { playing := [], storyAudioRef := none, inflight := [], chatAudioRef := none,
    isProcessingQueue := false }

/-- Run a sequence of audio trigger events. -/
def runAudio (s : AudioSysState) : List AudioEvent → AudioSysState
  | [] => s
  | e :: rest => runAudio (audioStep s e) rest

/-- Number of playing resources owned by one component. -/
def countOwner (o : AudioOwner) (l : List (AudioOwner × Nat)) : Nat :=
  (l.filter fun e => e.1 = o).length

/-- Whether an event sequence keeps narration invocations serialized: no
`playPageAudio` invocation occurs while another invocation's fetch is
still in flight.  Any concrete interleaving either satisfies this check or
exhibits the overlap that orphans a narration element. -/
def serialNarrFrom (s : AudioSysState) : List AudioEvent → Bool
  | [] => true
  | e :: rest =>
    (match e with
     | AudioEvent.storyInvoke _ => s.inflight.isEmpty
     | _ => true) && serialNarrFrom (audioStep s e) rest

/-- A concrete five-page story used by witnesses. -/
def fivePages : List StoryPageData :=
  [⟨1, "a", none⟩, ⟨2, "b", none⟩, ⟨3, "c", none⟩, ⟨4, "d", none⟩, ⟨5, "e", none⟩]

/-- Invariant of the cache system: every `audioMap` entry is non-empty and
is backed by a page currently storing a truthy audio URL. -/
def CacheInv (s : CacheSysState) : Prop :=
  ∀ p u, findUrl p s.audioMap = some u → u ≠ "" ∧ pageHasAudioAt p s.pages = true

/-- Chat half of the audio invariant, which holds under every
interleaving: the queue holds at most one playing resource, and every
playing chat resource is the one referenced by the chat `audioRef` while
the queue is marked processing. -/
def ChatInv (s : AudioSysState) : Prop :=
  countOwner AudioOwner.chat s.playing ≤ 1 ∧
  (∀ e ∈ s.playing, e.1 = AudioOwner.chat →
    s.chatAudioRef = some e.2 ∧ s.isProcessingQueue = true)

/-- Narration invariant, which holds only along serialized runs: at most
one narration element plays, every playing narration element is the one in
`audioRef`, at most one fetch is in flight, and while a fetch is in flight
no narration element plays and `audioRef` is cleared. -/
def SerialInv (s : AudioSysState) : Prop :=
  countOwner AudioOwner.story s.playing ≤ 1 ∧
  (∀ e ∈ s.playing, e.1 = AudioOwner.story → s.storyAudioRef = some e.2) ∧
  s.inflight.length ≤ 1 ∧
  (s.inflight ≠ [] →
    countOwner AudioOwner.story s.playing = 0 ∧ s.storyAudioRef = none)

/-! ## Helper lemmas -/

theorem navStep_bounds (total : Nat) (htotal : 1 ≤ total) (s : StoreNavState)
    (h1 : 1 ≤ s.currentPage) (h2 : s.currentPage ≤ total) (e : NavEvent) :
    1 ≤ (navStep total s e).currentPage ∧ (navStep total s e).currentPage ≤ total := by
  cases e with
  | next =>
    simp only [navStep, setCurrentPage]
    split
    · exact ⟨Nat.le_succ_of_le h1, show s.currentPage + 1 ≤ total by omega⟩
    · exact ⟨h1, h2⟩
  | previous =>
    simp only [navStep, setCurrentPage]
    split
    · exact ⟨show 1 ≤ s.currentPage - 1 by omega, show s.currentPage - 1 ≤ total by omega⟩
    · exact ⟨h1, h2⟩
  | reset => exact ⟨Nat.le_refl 1, htotal⟩

theorem runNav_bounds (total : Nat) (htotal : 1 ≤ total) (s : StoreNavState)
    (h1 : 1 ≤ s.currentPage) (h2 : s.currentPage ≤ total) (evs : List NavEvent) :
    1 ≤ (runNav total s evs).currentPage ∧ (runNav total s evs).currentPage ≤ total := by
  induction evs generalizing s with
  | nil => exact ⟨h1, h2⟩
  | cons e rest ih =>
    have h := navStep_bounds total htotal s h1 h2 e
    exact ih (navStep total s e) h.1 h.2

theorem foldl_max_bound (l : List Message) (a : Nat) :
    a ≤ l.foldl (fun acc m => max acc m.id) a ∧
    ∀ m ∈ l, m.id ≤ l.foldl (fun acc m => max acc m.id) a := by
  induction l generalizing a with
  | nil => exact ⟨Nat.le_refl a, by simp⟩
  | cons x xs ih =>
    have h := ih (max a x.id)
    refine ⟨Nat.le_trans (Nat.le_max_left a x.id) h.1, ?_⟩
    intro m hm
    rcases List.mem_cons.mp hm with rfl | hm
    · exact Nat.le_trans (Nat.le_max_right a m.id) h.1
    · exact h.2 m hm

theorem foldl_max_attained (l : List Message) (a : Nat) :
    l.foldl (fun acc m => max acc m.id) a = a ∨
    ∃ m ∈ l, l.foldl (fun acc m => max acc m.id) a = m.id := by
  induction l generalizing a with
  | nil => exact Or.inl rfl
  | cons x xs ih =>
    rcases ih (max a x.id) with h | ⟨m, hm, h⟩
    · rcases max_choice a x.id with hc | hc
      · exact Or.inl (by simpa [List.foldl, hc] using h)
      · exact Or.inr ⟨x, List.mem_cons_self x xs, by simpa [List.foldl, hc] using h⟩
    · exact Or.inr ⟨m, List.mem_cons_of_mem x hm, h⟩

theorem le_maxMsgId (msgs : List Message) : ∀ m ∈ msgs, m.id ≤ maxMsgId msgs :=
  (foldl_max_bound msgs 0).2

theorem maxMsgId_attained (msgs : List Message) (h : msgs ≠ []) :
    ∃ m ∈ msgs, m.id = maxMsgId msgs := by
  rcases msgs with _ | ⟨x, xs⟩
  · exact absurd rfl h
  · unfold maxMsgId
    rcases foldl_max_attained (x :: xs) 0 with h0 | ⟨m, hm, hfold⟩
    · refine ⟨x, List.mem_cons_self x xs, ?_⟩
      have hx := ((foldl_max_bound (x :: xs) 0).2 x (List.mem_cons_self x xs))
      omega
    · exact ⟨m, hm, hfold.symm⟩

theorem countOwner_cons (o : AudioOwner) (e : AudioOwner × Nat)
    (l : List (AudioOwner × Nat)) :
    countOwner o (e :: l) = (if e.1 = o then 1 else 0) + countOwner o l := by
  simp only [countOwner, List.filter_cons]
  by_cases h : e.1 = o
  · simp [h, Nat.add_comm]
  · simp [h]

theorem removePlaying_cons_keep (o : AudioOwner) (id : Nat) (e : AudioOwner × Nat)
    (rest : List (AudioOwner × Nat)) (hq : ¬(e.1 = o ∧ e.2 = id)) :
    removePlaying o id (e :: rest) = e :: removePlaying o id rest := by
  have hcond : (!(decide (e.1 = o ∧ e.2 = id))) = true := by
    simp only [Bool.not_eq_true', decide_eq_false_iff_not]
    exact hq
  simp only [removePlaying, List.filter_cons, hcond, if_true]

theorem removePlaying_cons_drop (o : AudioOwner) (id : Nat) (e : AudioOwner × Nat)
    (rest : List (AudioOwner × Nat)) (hq : e.1 = o ∧ e.2 = id) :
    removePlaying o id (e :: rest) = removePlaying o id rest := by
  have hcond : (!(decide (e.1 = o ∧ e.2 = id))) = false := by
    simp only [Bool.not_eq_false', decide_eq_true_eq]
    exact hq
  simp only [removePlaying, List.filter_cons, hcond]
  simp

theorem mem_removePlaying (o : AudioOwner) (id : Nat) (l : List (AudioOwner × Nat))
    (e : AudioOwner × Nat) (h : e ∈ removePlaying o id l) :
    e ∈ l ∧ ¬(e.1 = o ∧ e.2 = id) := by
  have h2 := List.mem_filter.mp h
  have h3 := h2.2
  refine ⟨h2.1, fun hc => ?_⟩
  rw [hc.1, hc.2] at h3
  simp at h3

theorem countOwner_removePlaying_other (o o' : AudioOwner) (hne : o ≠ o')
    (id : Nat) (l : List (AudioOwner × Nat)) :
    countOwner o (removePlaying o' id l) = countOwner o l := by
  induction l with
  | nil => rfl
  | cons e rest ih =>
    by_cases hq : e.1 = o' ∧ e.2 = id
    · have ho : ¬(e.1 = o) := by
        rw [hq.1]
        exact fun hh => hne hh.symm
      rw [removePlaying_cons_drop o' id e rest hq, ih, countOwner_cons,
        if_neg ho, Nat.zero_add]
    · rw [removePlaying_cons_keep o' id e rest hq, countOwner_cons,
        countOwner_cons, ih]

theorem countOwner_removePlaying_all (o : AudioOwner) (id : Nat)
    (l : List (AudioOwner × Nat)) (hall : ∀ e ∈ l, e.1 = o → e.2 = id) :
    countOwner o (removePlaying o id l) = 0 := by
  induction l with
  | nil => rfl
  | cons e rest ih =>
    have ihr := ih fun x hx => hall x (List.mem_cons_of_mem e hx)
    by_cases ho : e.1 = o
    · have hid : e.2 = id := hall e (List.mem_cons_self e rest) ho
      rw [removePlaying_cons_drop o id e rest ⟨ho, hid⟩, ihr]
    · rw [removePlaying_cons_keep o id e rest (fun hc => ho hc.1),
        countOwner_cons, if_neg ho, Nat.zero_add, ihr]

theorem countOwner_eq_zero (o : AudioOwner) (l : List (AudioOwner × Nat))
    (h : ∀ e ∈ l, ¬(e.1 = o)) : countOwner o l = 0 := by
  induction l with
  | nil => rfl
  | cons e rest ih =>
    rw [countOwner_cons, if_neg (h e (List.mem_cons_self e rest)),
      Nat.zero_add]
    exact ih fun x hx => h x (List.mem_cons_of_mem e hx)

theorem length_eq_countOwner (l : List (AudioOwner × Nat)) :
    l.length = countOwner AudioOwner.story l + countOwner AudioOwner.chat l := by
  induction l with
  | nil => rfl
  | cons e rest ih =>
    rw [List.length_cons, countOwner_cons, countOwner_cons, ih]
    cases he : e.1 <;> simp [he] <;> omega

theorem countOwner_removePlaying_le (o : AudioOwner) (id : Nat)
    (l : List (AudioOwner × Nat)) :
    countOwner o (removePlaying o id l) ≤ countOwner o l := by
  induction l with
  | nil => exact Nat.le_refl 0
  | cons e rest ih =>
    by_cases hq : e.1 = o ∧ e.2 = id
    · rw [removePlaying_cons_drop o id e rest hq, countOwner_cons]
      exact Nat.le_trans ih (Nat.le_add_left _ _)
    · rw [removePlaying_cons_keep o id e rest hq, countOwner_cons, countOwner_cons]
      exact Nat.add_le_add_left ih _

theorem countOwner_pos_of_mem (o : AudioOwner) (l : List (AudioOwner × Nat))
    (e : AudioOwner × Nat) (he : e ∈ l) (ho : e.1 = o) : 0 < countOwner o l := by
  induction l with
  | nil => simp at he
  | cons x rest ih =>
    rw [countOwner_cons]
    rcases List.mem_cons.mp he with rfl | he2
    · rw [if_pos ho]
      omega
    · have := ih he2
      omega

theorem audioStep_chatInv (s : AudioSysState) (ev : AudioEvent) (h : ChatInv s) :
    ChatInv (audioStep s ev) := by
  obtain ⟨hcc, hrc⟩ := h
  cases ev with
  | storyInvoke r =>
    cases href : s.storyAudioRef with
    | some old =>
      simp only [audioStep, href, ChatInv]
      refine ⟨?_, ?_⟩
      · rw [countOwner_removePlaying_other AudioOwner.chat AudioOwner.story (by simp)
          old s.playing]
        exact hcc
      · intro e he hch
        obtain ⟨hin, _⟩ := mem_removePlaying _ _ _ _ he
        exact hrc e hin hch
    | none =>
      simp only [audioStep, href]
      exact ⟨hcc, hrc⟩
  | storyPlayOk r =>
    by_cases hr : r ∈ s.inflight
    · simp only [audioStep, if_pos hr, ChatInv]
      refine ⟨?_, ?_⟩
      · rw [countOwner_cons,
          if_neg (by simp : ¬((AudioOwner.story, r).1 = AudioOwner.chat)), Nat.zero_add]
        exact hcc
      · intro e he hch
        rcases List.mem_cons.mp he with rfl | he2
        · simp at hch
        · exact hrc e he2 hch
    · simp only [audioStep, if_neg hr]
      exact ⟨hcc, hrc⟩
  | storyFetchFail r =>
    by_cases hr : r ∈ s.inflight
    · simp only [audioStep, if_pos hr]
      exact ⟨hcc, hrc⟩
    · simp only [audioStep, if_neg hr]
      exact ⟨hcc, hrc⟩
  | storyStop =>
    cases href : s.storyAudioRef with
    | some old =>
      simp only [audioStep, href, ChatInv]
      refine ⟨?_, ?_⟩
      · rw [countOwner_removePlaying_other AudioOwner.chat AudioOwner.story (by simp)
          old s.playing]
        exact hcc
      · intro e he hch
        obtain ⟨hin, _⟩ := mem_removePlaying _ _ _ _ he
        exact hrc e hin hch
    | none =>
      simp only [audioStep, href]
      exact ⟨hcc, hrc⟩
  | storyEnded r =>
    simp only [audioStep, ChatInv]
    refine ⟨?_, ?_⟩
    · rw [countOwner_removePlaying_other AudioOwner.chat AudioOwner.story (by simp)
        r s.playing]
      exact hcc
    · intro e he hch
      obtain ⟨hin, _⟩ := mem_removePlaying _ _ _ _ he
      exact hrc e hin hch
  | chatStart r =>
    cases hproc : s.isProcessingQueue with
    | true =>
      simp only [audioStep, hproc, if_true]
      exact ⟨hcc, hrc⟩
    | false =>
      have hnochat : ∀ e ∈ s.playing, ¬(e.1 = AudioOwner.chat) := by
        intro e he hch
        have h2 := (hrc e he hch).2
        rw [hproc] at h2
        exact Bool.false_ne_true h2
      simp only [audioStep, hproc, ChatInv, Bool.false_eq_true, if_false]
      refine ⟨?_, ?_⟩
      · rw [countOwner_cons]
        simp only [if_pos rfl]
        rw [countOwner_eq_zero AudioOwner.chat s.playing hnochat]
        simp
      · intro e he hch
        rcases List.mem_cons.mp he with rfl | he2
        · constructor <;> trivial
        · exact absurd hch (hnochat e he2)
  | chatEnded =>
    cases href : s.chatAudioRef with
    | some old =>
      have hall : ∀ e ∈ s.playing, e.1 = AudioOwner.chat → e.2 = old := by
        intro e he hch
        have h2 := (hrc e he hch).1
        rw [href] at h2
        exact (Option.some.inj h2).symm
      simp only [audioStep, href, ChatInv]
      refine ⟨?_, ?_⟩
      · rw [countOwner_removePlaying_all AudioOwner.chat old s.playing hall]
        exact Nat.zero_le 1
      · intro e he hch
        obtain ⟨hin, hneg⟩ := mem_removePlaying _ _ _ _ he
        exact absurd ⟨hch, hall e hin hch⟩ hneg
    | none =>
      simp only [audioStep, href]
      exact ⟨hcc, hrc⟩

theorem audioStep_serialInv (s : AudioSysState) (ev : AudioEvent) (h : SerialInv s)
    (hguard : ∀ r, ev = AudioEvent.storyInvoke r → s.inflight = []) :
    SerialInv (audioStep s ev) := by
  obtain ⟨hcs, hrs, hlen, hfl⟩ := h
  cases ev with
  | storyInvoke r =>
    have hempty : s.inflight = [] := hguard r rfl
    have hzero : countOwner AudioOwner.story
        (match s.storyAudioRef with
         | some old => removePlaying AudioOwner.story old s.playing
         | none => s.playing) = 0 := by
      cases href : s.storyAudioRef with
      | some old =>
        have hall : ∀ e ∈ s.playing, e.1 = AudioOwner.story → e.2 = old := by
          intro e he hst
          have h2 := hrs e he hst
          rw [href] at h2
          exact (Option.some.inj h2).symm
        exact countOwner_removePlaying_all AudioOwner.story old s.playing hall
      | none =>
        have hnone : ∀ e ∈ s.playing, ¬(e.1 = AudioOwner.story) := by
          intro e he hst
          have h2 := hrs e he hst
          rw [href] at h2
          exact Option.noConfusion h2
        exact countOwner_eq_zero AudioOwner.story s.playing hnone
    have hmem0 : ∀ e ∈ (match s.storyAudioRef with
         | some old => removePlaying AudioOwner.story old s.playing
         | none => s.playing), e.1 = AudioOwner.story → False := by
      intro e he hst
      have hcount := hzero
      have := countOwner_pos_of_mem AudioOwner.story _ e he hst
      omega
    refine ⟨?_, ?_, ?_, ?_⟩
    · simp only [audioStep]
      rw [hzero]
      exact Nat.zero_le 1
    · intro e he hst
      exact absurd hst (fun hs => hmem0 e he hs)
    · simp only [audioStep, hempty, List.length_cons, List.length_nil]
      exact Nat.le_refl 1
    · intro hne
      simp only [audioStep]
      exact ⟨hzero, trivial⟩
  | storyPlayOk r =>
    by_cases hr : r ∈ s.inflight
    · have hne : s.inflight ≠ [] := by
        intro hc
        rw [hc] at hr
        simp at hr
      obtain ⟨hzero, href⟩ := hfl hne
      have hnostory : ∀ e ∈ s.playing, ¬(e.1 = AudioOwner.story) := by
        intro e he hst
        have := countOwner_pos_of_mem AudioOwner.story s.playing e he hst
        omega
      have herase : s.inflight.erase r = [] := by
        cases hq : s.inflight with
        | nil => exact absurd hq hne
        | cons a l =>
          rw [hq] at hlen
          simp only [List.length_cons] at hlen
          have hl : l = [] := List.eq_nil_of_length_eq_zero (by omega)
          subst hl
          rw [hq] at hr
          simp at hr
          subst hr
          simp [List.erase_cons]
      simp only [audioStep, if_pos hr, SerialInv]
      refine ⟨?_, ?_, ?_, ?_⟩
      · rw [countOwner_cons]
        simp only [if_pos rfl]
        rw [countOwner_eq_zero AudioOwner.story s.playing hnostory]
        simp
      · intro e he hst
        rcases List.mem_cons.mp he with rfl | he2
        · rfl
        · exact absurd hst (hnostory e he2)
      · rw [herase]
        exact Nat.zero_le 1
      · intro hne2
        rw [herase] at hne2
        exact absurd rfl hne2
    · simp only [audioStep, if_neg hr]
      exact ⟨hcs, hrs, hlen, hfl⟩
  | storyFetchFail r =>
    by_cases hr : r ∈ s.inflight
    · have hle : (s.inflight.erase r).length ≤ s.inflight.length :=
        List.length_erase_le r s.inflight
      simp only [audioStep, if_pos hr, SerialInv]
      refine ⟨hcs, hrs, by omega, ?_⟩
      · intro hne2
        have hne : s.inflight ≠ [] := by
          intro hc
          rw [hc] at hr
          simp at hr
        exact hfl hne
    · simp only [audioStep, if_neg hr]
      exact ⟨hcs, hrs, hlen, hfl⟩
  | storyStop =>
    cases href : s.storyAudioRef with
    | some old =>
      have hall : ∀ e ∈ s.playing, e.1 = AudioOwner.story → e.2 = old := by
        intro e he hst
        have h2 := hrs e he hst
        rw [href] at h2
        exact (Option.some.inj h2).symm
      simp only [audioStep, href, SerialInv]
      refine ⟨?_, ?_, hlen, ?_⟩
      · rw [countOwner_removePlaying_all AudioOwner.story old s.playing hall]
        exact Nat.zero_le 1
      · intro e he hst
        obtain ⟨hin, hneg⟩ := mem_removePlaying _ _ _ _ he
        exact absurd ⟨hst, hall e hin hst⟩ hneg
      · intro hne
        exact ⟨countOwner_removePlaying_all AudioOwner.story old s.playing hall, trivial⟩
    | none =>
      simp only [audioStep, href]
      exact ⟨hcs, hrs, hlen, hfl⟩
  | storyEnded r =>
    simp only [audioStep, SerialInv]
    refine ⟨?_, ?_, hlen, ?_⟩
    · exact Nat.le_trans (countOwner_removePlaying_le AudioOwner.story r s.playing) hcs
    · intro e he hst
      obtain ⟨hin, _⟩ := mem_removePlaying _ _ _ _ he
      exact hrs e hin hst
    · intro hne
      obtain ⟨hzero, href⟩ := hfl hne
      refine ⟨?_, href⟩
      have := countOwner_removePlaying_le AudioOwner.story r s.playing
      omega
  | chatStart r =>
    cases hproc : s.isProcessingQueue with
    | true =>
      simp only [audioStep, hproc, if_true]
      exact ⟨hcs, hrs, hlen, hfl⟩
    | false =>
      simp only [audioStep, hproc, SerialInv, Bool.false_eq_true, if_false]
      refine ⟨?_, ?_, hlen, ?_⟩
      · rw [countOwner_cons,
          if_neg (by simp : ¬((AudioOwner.chat, r).1 = AudioOwner.story)), Nat.zero_add]
        exact hcs
      · intro e he hst
        rcases List.mem_cons.mp he with rfl | he2
        · simp at hst
        · exact hrs e he2 hst
      · intro hne
        obtain ⟨hzero, href⟩ := hfl hne
        refine ⟨?_, href⟩
        rw [countOwner_cons,
          if_neg (by simp : ¬((AudioOwner.chat, r).1 = AudioOwner.story)), Nat.zero_add]
        exact hzero
  | chatEnded =>
    cases href : s.chatAudioRef with
    | some old =>
      simp only [audioStep, href, SerialInv]
      refine ⟨?_, ?_, hlen, ?_⟩
      · rw [countOwner_removePlaying_other AudioOwner.story AudioOwner.chat (by simp)
          old s.playing]
        exact hcs
      · intro e he hst
        obtain ⟨hin, _⟩ := mem_removePlaying _ _ _ _ he
        exact hrs e hin hst
      · intro hne
        obtain ⟨hzero, hrf⟩ := hfl hne
        refine ⟨?_, hrf⟩
        rw [countOwner_removePlaying_other AudioOwner.story AudioOwner.chat (by simp)
          old s.playing]
        exact hzero
    | none =>
      simp only [audioStep, href]
      exact ⟨hcs, hrs, hlen, hfl⟩

theorem runAudio_chatInv (s : AudioSysState) (h : ChatInv s) (evs : List AudioEvent) :
    ChatInv (runAudio s evs) := by
  induction evs generalizing s with
  | nil => exact h
  | cons e rest ih => exact ih (audioStep s e) (audioStep_chatInv s e h)

theorem runAudio_serialInv (s : AudioSysState) (h : SerialInv s)
    (evs : List AudioEvent) (hser : serialNarrFrom s evs = true) :
    SerialInv (runAudio s evs) := by
  induction evs generalizing s with
  | nil => exact h
  | cons e rest ih =>
    simp only [serialNarrFrom, Bool.and_eq_true] at hser
    refine ih (audioStep s e) (audioStep_serialInv s e h ?_) hser.2
    intro r hr
    subst hr
    have hg : s.inflight.isEmpty = true := hser.1
    cases hq : s.inflight with
    | nil => rfl
    | cons a l =>
      rw [hq] at hg
      simp at hg

theorem chatInv_init : ChatInv audioInit := by
  refine ⟨?_, ?_⟩ <;> simp [audioInit, countOwner]

theorem serialInv_init : SerialInv audioInit := by
  refine ⟨?_, ?_, ?_, ?_⟩ <;> simp [audioInit, countOwner]

theorem drainTrace_append (ok : Nat → Bool) (a b : List (Nat × String)) :
    drainTrace ok (a ++ b) = drainTrace ok a ++ drainTrace ok b := by
  induction a with
  | nil => rfl
  | cons e rest ih => simp [drainTrace, ih]

theorem playEnd_mem_drainTrace (ok : Nat → Bool) (q : List (Nat × String))
    (e : Nat × String) (he : e ∈ q) (hok : ok e.1 = true) :
    QEvent.playEnd e.1 ∈ drainTrace ok q := by
  induction q with
  | nil => simp at he
  | cons x rest ih =>
    simp only [drainTrace, List.mem_append]
    rcases List.mem_cons.mp he with rfl | he2
    · exact Or.inl (by simp [entryTrace, hok])
    · exact Or.inr (ih he2)

theorem synthStart_mem_entryTrace (ok : Nat → Bool) (x : Nat × String) (id : Nat) :
    QEvent.synthStart id ∈ entryTrace ok x ↔ id = x.1 := by
  cases hok : ok x.1 <;> simp [entryTrace, hok]

theorem synthStart_self_mem_entryTrace (ok : Nat → Bool) (x : Nat × String) :
    QEvent.synthStart x.1 ∈ entryTrace ok x :=
  (synthStart_mem_entryTrace ok x x.1).mpr rfl

theorem synthStart_mem_drainTrace (ok : Nat → Bool) (q : List (Nat × String))
    (id : Nat) :
    QEvent.synthStart id ∈ drainTrace ok q ↔ id ∈ q.map (·.1) := by
  induction q with
  | nil => simp [drainTrace]
  | cons x rest ih =>
    simp only [drainTrace, List.mem_append, synthStart_mem_entryTrace, ih,
      List.map_cons, List.mem_cons]

theorem processedIds_append (a b : List QEvent) :
    processedIds (a ++ b) = processedIds a ++ processedIds b := by
  simp [processedIds, List.filterMap_append]

theorem processedIds_entryTrace (ok : Nat → Bool) (x : Nat × String) :
    processedIds (entryTrace ok x) = [x.1] := by
  cases hok : ok x.1 <;> simp [entryTrace, processedIds, hok]

theorem processedIds_drainTrace (ok : Nat → Bool) (q : List (Nat × String)) :
    processedIds (drainTrace ok q) = q.map (·.1) := by
  induction q with
  | nil => rfl
  | cons x rest ih =>
    simp only [drainTrace, processedIds_append, processedIds_entryTrace, ih,
      List.map_cons, List.singleton_append]

theorem signal_not_mem_entryTrace (ok : Nat → Bool) (x : Nat × String) (id : Nat)
    (hid : ok id = false) : QEvent.signal id ∉ entryTrace ok x := by
  intro h
  cases hok : ok x.1 with
  | true =>
    simp [entryTrace, hok] at h
    rw [h, hok] at hid
    simp at hid
  | false => simp [entryTrace, hok] at h

theorem signal_not_mem_drainTrace (ok : Nat → Bool) (q : List (Nat × String))
    (id : Nat) (hid : ok id = false) : QEvent.signal id ∉ drainTrace ok q := by
  induction q with
  | nil => simp [drainTrace]
  | cons x rest ih =>
    simp only [drainTrace, List.mem_append]
    rintro (h | h)
    · exact signal_not_mem_entryTrace ok x id hid h
    · exact ih h

theorem playStart_not_mem_entryTrace (ok : Nat → Bool) (x : Nat × String) (id : Nat)
    (hid : ok id = false) : QEvent.playStart id ∉ entryTrace ok x := by
  intro h
  cases hok : ok x.1 with
  | true =>
    simp [entryTrace, hok] at h
    rw [h, hok] at hid
    simp at hid
  | false => simp [entryTrace, hok] at h

theorem playStart_not_mem_drainTrace (ok : Nat → Bool) (q : List (Nat × String))
    (id : Nat) (hid : ok id = false) : QEvent.playStart id ∉ drainTrace ok q := by
  induction q with
  | nil => simp [drainTrace]
  | cons x rest ih =>
    simp only [drainTrace, List.mem_append]
    rintro (h | h)
    · exact playStart_not_mem_entryTrace ok x id hid h
    · exact ih h

theorem append_right_ne_empty (a b : String) (hb : b ≠ "") : a ++ b ≠ "" := by
  intro hc
  apply hb
  have hd := congrArg String.data hc
  rw [String.data_append] at hd
  have h2 : b.data = [] := (List.append_eq_nil.mp hd).2
  cases b with
  | mk d =>
    simp only [String.data] at h2
    rw [show ("" : String) = ⟨[]⟩ from rfl, h2]

theorem normalizePanel_ne_empty (base u : String) (hu : u ≠ "") :
    normalizePanel base u ≠ "" := by
  unfold normalizePanel
  split
  · exact append_right_ne_empty base u hu
  · split
    · exact hu
    · exact append_right_ne_empty (base ++ "/") u hu

theorem findPage_map (f : StoryPageData → StoryPageData)
    (hf : ∀ d, (f d).page = d.page) (p : Nat) (pages : List StoryPageData) :
    findPage p (pages.map f) = (findPage p pages).map f := by
  induction pages with
  | nil => rfl
  | cons d rest ih =>
    simp only [List.map_cons, findPage, hf d]
    by_cases h : d.page = p
    · simp [h]
    · simp [h, ih]

theorem map_page_of_page_preserving (f : StoryPageData → StoryPageData)
    (hf : ∀ d, (f d).page = d.page) (pages : List StoryPageData) :
    (pages.map f).map (·.page) = pages.map (·.page) := by
  induction pages with
  | nil => rfl
  | cons d rest ih => simp [hf d, ih]

theorem pageHasAudioAt_map_mono (f : StoryPageData → StoryPageData)
    (hf : ∀ d, (f d).page = d.page)
    (hf2 : ∀ d, hasAudio d = true → hasAudio (f d) = true)
    (p : Nat) (pages : List StoryPageData)
    (h : pageHasAudioAt p pages = true) :
    pageHasAudioAt p (pages.map f) = true := by
  unfold pageHasAudioAt at h ⊢
  rw [findPage_map f hf]
  cases hfp : findPage p pages with
  | none => rw [hfp] at h; simp at h
  | some d =>
    rw [hfp] at h
    simpa using hf2 d h

theorem localMergePage_page (existing : List (Nat × String)) (d : StoryPageData) :
    (localMergePage existing d).page = d.page := by
  unfold localMergePage
  cases hf : findUrl d.page existing with
  | none => rfl
  | some u => by_cases hu : u = "" <;> simp [hu]

theorem localMergePage_audio (existing : List (Nat × String)) (d : StoryPageData)
    (h : hasAudio d = true) : hasAudio (localMergePage existing d) = true := by
  unfold localMergePage
  cases hf : findUrl d.page existing with
  | none => exact h
  | some u =>
    by_cases hu : u = ""
    · simpa [hu] using h
    · simp [hasAudio, hu]

theorem serverMergePage_page (base : String) (serverAudio : List (Nat × String))
    (d : StoryPageData) : (serverMergePage base serverAudio d).page = d.page := by
  unfold serverMergePage
  by_cases hA : hasAudio d = true
  · simp [hA]
  · rw [if_neg hA]
    cases hf : findUrl d.page serverAudio with
    | none => rfl
    | some u => by_cases hu : u = "" <;> simp [hu]

theorem serverMergePage_audio (base : String) (serverAudio : List (Nat × String))
    (d : StoryPageData) (h : hasAudio d = true) :
    hasAudio (serverMergePage base serverAudio d) = true := by
  unfold serverMergePage
  rw [if_pos h]
  exact h

theorem genMergePage_page (base : String) (generated : List (Nat × String))
    (d : StoryPageData) : (genMergePage base generated d).page = d.page := by
  unfold genMergePage
  by_cases hA : hasAudio d = true
  · simp [hA]
  · rw [if_neg hA]
    cases hf : findUrl d.page generated with
    | none => rfl
    | some u => by_cases hu : u = "" <;> simp [hu]

theorem genMergePage_audio (base : String) (generated : List (Nat × String))
    (d : StoryPageData) (h : hasAudio d = true) :
    hasAudio (genMergePage base generated d) = true := by
  unfold genMergePage
  rw [if_pos h]
  exact h

theorem cacheStep_pages_mono (base : String) (s : CacheSysState) (ev : CacheEvent)
    (p : Nat) (h : pageHasAudioAt p s.pages = true) :
    pageHasAudioAt p (cacheStep base s ev).pages = true := by
  cases ev with
  | localCheck existing =>
    exact pageHasAudioAt_map_mono _ (localMergePage_page existing)
      (localMergePage_audio existing) p s.pages h
  | serverCheck serverAudio =>
    exact pageHasAudioAt_map_mono _ (serverMergePage_page base serverAudio)
      (serverMergePage_audio base serverAudio) p s.pages h
  | genResults generated =>
    exact pageHasAudioAt_map_mono _ (genMergePage_page base generated)
      (genMergePage_audio base generated) p s.pages h
  | rebuildMap =>
    simp only [cacheStep]
    split <;> exact h

theorem cacheStep_nodup (base : String) (s : CacheSysState) (ev : CacheEvent)
    (hnd : (s.pages.map (·.page)).Nodup) :
    ((cacheStep base s ev).pages.map (·.page)).Nodup := by
  cases ev with
  | localCheck existing =>
    show ((localAudioMerge s.pages existing).map (·.page)).Nodup
    unfold localAudioMerge
    rw [map_page_of_page_preserving _ (localMergePage_page existing) s.pages]
    exact hnd
  | serverCheck serverAudio =>
    show ((serverAudioMerge base s.pages serverAudio).map (·.page)).Nodup
    unfold serverAudioMerge
    rw [map_page_of_page_preserving _ (serverMergePage_page base serverAudio) s.pages]
    exact hnd
  | genResults generated =>
    show ((generatedAudioMerge base s.pages generated).map (·.page)).Nodup
    unfold generatedAudioMerge
    rw [map_page_of_page_preserving _ (genMergePage_page base generated) s.pages]
    exact hnd
  | rebuildMap =>
    simp only [cacheStep]
    split <;> exact hnd

theorem findPage_eq_none_of_not_mem (p : Nat) (pages : List StoryPageData)
    (h : p ∉ pages.map (·.page)) : findPage p pages = none := by
  induction pages with
  | nil => rfl
  | cons d rest ih =>
    have h1 : ¬(d.page = p) := fun hc => h (by simp [hc])
    have h2 : p ∉ rest.map (·.page) := fun hc => h (by simp [hc])
    simp only [findPage, if_neg h1]
    exact ih h2

theorem rebuildEntry_eq_some (base : String) (d : StoryPageData) (pr : Nat × String)
    (h : rebuildEntry base d = some pr) :
    hasAudio d = true ∧ pr.1 = d.page ∧ pr.2 ≠ "" := by
  unfold rebuildEntry at h
  revert h
  cases ha : d.audio_url with
  | none =>
    intro h
    exact Option.noConfusion h
  | some u =>
    show (if u ≠ "" then some (d.page, normalizePanel base u) else none) = some pr →
      hasAudio d = true ∧ pr.1 = d.page ∧ pr.2 ≠ ""
    intro h
    by_cases hu : u = ""
    · rw [if_neg (by simp [hu])] at h
      exact Option.noConfusion h
    · rw [if_pos hu] at h
      have hpr : pr = (d.page, normalizePanel base u) := (Option.some.inj h).symm
      subst hpr
      exact ⟨by simp [hasAudio, ha, hu], rfl, normalizePanel_ne_empty base u hu⟩

theorem rebuildEntry_of_hasAudio (base : String) (d : StoryPageData)
    (h : hasAudio d = true) :
    ∃ u, rebuildEntry base d = some (d.page, u) ∧ u ≠ "" := by
  unfold hasAudio at h
  revert h
  cases ha : d.audio_url with
  | none =>
    intro h
    exact Bool.noConfusion h
  | some u =>
    intro h
    have hu : u ≠ "" := by simpa using h
    exact ⟨normalizePanel base u, by simp [rebuildEntry, ha, hu],
      normalizePanel_ne_empty base u hu⟩

theorem findUrl_rebuild_none (base : String) (p : Nat) (pages : List StoryPageData)
    (h : p ∉ pages.map (·.page)) :
    findUrl p (rebuildAudioMap base pages) = none := by
  induction pages with
  | nil => rfl
  | cons d rest ih =>
    have h1 : ¬(d.page = p) := fun hc => h (by simp [hc])
    have h2 : p ∉ rest.map (·.page) := fun hc => h (by simp [hc])
    have hrest := ih h2
    show findUrl p (List.filterMap (rebuildEntry base) (d :: rest)) = none
    rw [List.filterMap_cons]
    cases he : rebuildEntry base d with
    | none => exact hrest
    | some b =>
      have hb : b.1 = d.page := (rebuildEntry_eq_some base d b he).2.1
      show (if b.1 = p then some b.2
        else findUrl p (List.filterMap (rebuildEntry base) rest)) = none
      rw [if_neg (by rw [hb]; exact h1)]
      exact hrest

theorem findUrl_rebuild (base : String) (pages : List StoryPageData)
    (hnd : (pages.map (·.page)).Nodup) (p : Nat) :
    findUrl p (rebuildAudioMap base pages) =
      Option.bind (findPage p pages) (fun d => Option.map Prod.snd (rebuildEntry base d)) := by
  induction pages with
  | nil => rfl
  | cons d rest ih =>
    have hnd2 : (rest.map (·.page)).Nodup := (List.nodup_cons.mp (by simpa using hnd)).2
    have hnotin : d.page ∉ rest.map (·.page) := (List.nodup_cons.mp (by simpa using hnd)).1
    show findUrl p (List.filterMap (rebuildEntry base) (d :: rest)) = _
    rw [List.filterMap_cons]
    by_cases hp : d.page = p
    · have hfp : findPage p (d :: rest) = some d := by simp [findPage, hp]
      rw [hfp]
      cases he : rebuildEntry base d with
      | none =>
        have hnone : findUrl p (rebuildAudioMap base rest) = none :=
          findUrl_rebuild_none base p rest (by rw [← hp]; exact hnotin)
        show findUrl p (List.filterMap (rebuildEntry base) rest) =
          Option.map Prod.snd (rebuildEntry base d)
        rw [he]
        exact hnone
      | some b =>
        have hb : b.1 = d.page := (rebuildEntry_eq_some base d b he).2.1
        show (if b.1 = p then some b.2
          else findUrl p (List.filterMap (rebuildEntry base) rest)) =
          Option.map Prod.snd (rebuildEntry base d)
        rw [if_pos (by rw [hb]; exact hp), he]
        rfl
    · have hfp : findPage p (d :: rest) = findPage p rest := by
        simp [findPage, hp]
      rw [hfp]
      cases he : rebuildEntry base d with
      | none => exact ih hnd2
      | some b =>
        have hb : b.1 = d.page := (rebuildEntry_eq_some base d b he).2.1
        show (if b.1 = p then some b.2
          else findUrl p (List.filterMap (rebuildEntry base) rest)) =
          Option.bind (findPage p rest) (fun d => Option.map Prod.snd (rebuildEntry base d))
        rw [if_neg (by rw [hb]; exact hp)]
        exact ih hnd2

theorem cacheStep_inv (base : String) (s : CacheSysState) (ev : CacheEvent)
    (hnd : (s.pages.map (·.page)).Nodup) (hinv : CacheInv s) :
    CacheInv (cacheStep base s ev) := by
  cases ev with
  | localCheck existing =>
    intro p u hu
    obtain ⟨hne, hpage⟩ := hinv p u hu
    exact ⟨hne, cacheStep_pages_mono base s (CacheEvent.localCheck existing) p hpage⟩
  | serverCheck serverAudio =>
    intro p u hu
    obtain ⟨hne, hpage⟩ := hinv p u hu
    exact ⟨hne, cacheStep_pages_mono base s (CacheEvent.serverCheck serverAudio) p hpage⟩
  | genResults generated =>
    intro p u hu
    obtain ⟨hne, hpage⟩ := hinv p u hu
    exact ⟨hne, cacheStep_pages_mono base s (CacheEvent.genResults generated) p hpage⟩
  | rebuildMap =>
    intro p u hu
    by_cases hlen : (rebuildAudioMap base s.pages).length > 0
    · have hu2 : findUrl p (rebuildAudioMap base s.pages) = some u := by
        have hstep : (cacheStep base s CacheEvent.rebuildMap).audioMap =
            rebuildAudioMap base s.pages := by
          simp only [cacheStep]
          rw [if_pos hlen]
        rw [hstep] at hu
        exact hu
      rw [findUrl_rebuild base s.pages hnd p] at hu2
      cases hfp : findPage p s.pages with
      | none =>
        rw [hfp] at hu2
        exact Option.noConfusion hu2
      | some d =>
        rw [hfp] at hu2
        have hu3 : Option.map Prod.snd (rebuildEntry base d) = some u := hu2
        cases he : rebuildEntry base d with
        | none =>
          rw [he] at hu3
          exact Option.noConfusion hu3
        | some pr =>
          rw [he] at hu3
          have hup : pr.2 = u := Option.some.inj hu3
          obtain ⟨hA, hp1, hne⟩ := rebuildEntry_eq_some base d pr he
          refine ⟨hup ▸ hne, ?_⟩
          have hpagestep : (cacheStep base s CacheEvent.rebuildMap).pages = s.pages := by
            simp only [cacheStep]
            rw [if_pos hlen]
          rw [hpagestep]
          unfold pageHasAudioAt
          rw [hfp]
          exact hA
    · have hstep : cacheStep base s CacheEvent.rebuildMap = s := by
        simp only [cacheStep]
        rw [if_neg hlen]
      rw [hstep] at hu ⊢
      exact hinv p u hu

theorem cacheStep_map_mono (base : String) (s : CacheSysState) (ev : CacheEvent)
    (p : Nat) (u : String) (hnd : (s.pages.map (·.page)).Nodup) (hinv : CacheInv s)
    (hu : findUrl p s.audioMap = some u) (hne : u ≠ "") :
    ∃ u2, findUrl p (cacheStep base s ev).audioMap = some u2 ∧ u2 ≠ "" := by
  cases ev with
  | localCheck existing => exact ⟨u, hu, hne⟩
  | serverCheck serverAudio => exact ⟨u, hu, hne⟩
  | genResults generated => exact ⟨u, hu, hne⟩
  | rebuildMap =>
    obtain ⟨-, hpage⟩ := hinv p u hu
    unfold pageHasAudioAt at hpage
    cases hfp : findPage p s.pages with
    | none =>
      rw [hfp] at hpage
      exact Bool.noConfusion hpage
    | some d =>
      rw [hfp] at hpage
      obtain ⟨u2, he, hne2⟩ := rebuildEntry_of_hasAudio base d hpage
      have hfind : findUrl p (rebuildAudioMap base s.pages) = some u2 := by
        rw [findUrl_rebuild base s.pages hnd p, hfp]
        show Option.map Prod.snd (rebuildEntry base d) = some u2
        rw [he]
        rfl
      have hlen : (rebuildAudioMap base s.pages).length > 0 := by
        cases hq : rebuildAudioMap base s.pages with
        | nil => rw [hq] at hfind; exact Option.noConfusion hfind
        | cons a l => simp [hq]
      have hstep : (cacheStep base s CacheEvent.rebuildMap).audioMap =
          rebuildAudioMap base s.pages := by
        simp only [cacheStep]
        rw [if_pos hlen]
      refine ⟨u2, ?_, hne2⟩
      rw [hstep]
      exact hfind

theorem runCache_mono (base : String) (evs : List CacheEvent) :
    ∀ s : CacheSysState, (s.pages.map (·.page)).Nodup → CacheInv s →
    ((runCache base s evs).pages.map (·.page)).Nodup ∧
    CacheInv (runCache base s evs) ∧
    (∀ p, pageHasAudioAt p s.pages = true →
      pageHasAudioAt p (runCache base s evs).pages = true) ∧
    (∀ p u, findUrl p s.audioMap = some u → u ≠ "" →
      ∃ u2, findUrl p (runCache base s evs).audioMap = some u2 ∧ u2 ≠ "") := by
  induction evs with
  | nil =>
    intro s hnd hinv
    exact ⟨hnd, hinv, fun p h => h, fun p u hu hne => ⟨u, hu, hne⟩⟩
  | cons e rest ih =>
    intro s hnd hinv
    have hnd2 := cacheStep_nodup base s e hnd
    have hinv2 := cacheStep_inv base s e hnd hinv
    obtain ⟨ha, hb, hc, hd⟩ := ih (cacheStep base s e) hnd2 hinv2
    refine ⟨ha, hb, ?_, ?_⟩
    · intro p h
      exact hc p (cacheStep_pages_mono base s e p h)
    · intro p u hu hne
      obtain ⟨u2, h2, hn2⟩ := cacheStep_map_mono base s e p u hnd hinv hu hne
      exact hd p u2 h2 hn2

theorem getCount_setAssoc (p q v : Nat) (l : List (Nat × Nat)) :
    getCount p (setAssoc q v l) = if q = p then v else getCount p l := by
  induction l with
  | nil =>
    simp only [setAssoc, getCount]
  | cons e rest ih =>
    by_cases h : e.1 = q
    · simp only [setAssoc, if_pos h, getCount]
      by_cases h2 : q = p
      · simp [h2]
      · simp [h, h2]
    · simp only [setAssoc, if_neg h, getCount, ih]
      by_cases h2 : e.1 = p
      · have : ¬(q = p) := fun hc => h (hc ▸ h2)
        simp [h2, this]
      · simp [h2]

theorem findUrl_removeAssoc_self (p : Nat) (l : List (Nat × String)) :
    findUrl p (removeAssoc p l) = none := by
  induction l with
  | nil => rfl
  | cons e rest ih =>
    by_cases h : e.1 = p
    · simp only [removeAssoc, if_pos h, ih]
    · simp only [removeAssoc, if_neg h, findUrl, ih]

theorem getQuestion_removeAssoc_self (p : Nat) (l : List (Nat × String)) :
    getQuestion p (removeAssoc p l) = none := by
  simp [getQuestion, findUrl_removeAssoc_self]

theorem onSendMessage_convCounts (s : ConvState) (page : Nat) (text : String)
    (reply : Option String) :
    (onSendMessage s page text reply).state.convCounts = s.convCounts ∨
    (onSendMessage s page text reply).state.convCounts =
      setAssoc page 0 s.convCounts ∨
    ((onSendMessage s page text reply).state.convCounts =
      setAssoc page (getCount page s.convCounts + 1) s.convCounts ∧
      getCount page s.convCounts + 1 < 2) := by
  cases hq : getQuestion page s.questions with
  | none =>
    cases reply <;> simp [onSendMessage, hq]
  | some q =>
    by_cases hp : page % 2 = 0
    · cases reply with
      | none => simp [onSendMessage, hq, hp]
      | some rt =>
        by_cases hc : getCount page s.convCounts + 1 ≥ 2
        · simp [onSendMessage, hq, hp, hc]
        · right; right
          constructor
          · simp [onSendMessage, hq, hp, hc]
          · omega
    · cases reply <;> simp [onSendMessage, hq, hp]

theorem onSendMessage_exchangeCount (s : ConvState) (page : Nat) (text : String)
    (reply : Option String) :
    (onSendMessage s page text reply).exchangeCount = none ∨
    (onSendMessage s page text reply).exchangeCount =
      some (getCount page s.convCounts + 1) := by
  cases hq : getQuestion page s.questions with
  | none => cases reply <;> simp [onSendMessage, hq]
  | some q =>
    by_cases hp : page % 2 = 0
    · cases reply with
      | none => simp [onSendMessage, hq, hp]
      | some rt =>
        by_cases hc : getCount page s.convCounts + 1 ≥ 2 <;>
          simp [onSendMessage, hq, hp, hc]
    · cases reply <;> simp [onSendMessage, hq, hp]

theorem convStep_counts (s : ConvState) (e : ConvEvent)
    (hinv : ∀ pg, getCount pg s.convCounts ≤ 1) :
    ∀ pg, getCount pg (convStep s e).convCounts ≤ 1 := by
  cases e with
  | questionOpened p q =>
    intro pg
    simp only [convStep]
    rw [getCount_setAssoc]
    split
    · exact Nat.zero_le 1
    · exact hinv pg
  | send p tx rp =>
    intro pg
    have hstep : (convStep s (ConvEvent.send p tx rp)).convCounts =
        (onSendMessage s p tx rp).state.convCounts := rfl
    rw [hstep]
    rcases onSendMessage_convCounts s p tx rp with h | h | ⟨h, hlt⟩
    · rw [h]; exact hinv pg
    · rw [h, getCount_setAssoc]
      split
      · exact Nat.zero_le 1
      · exact hinv pg
    · rw [h, getCount_setAssoc]
      split
      · omega
      · exact hinv pg
  | ttsDone mid =>
    intro pg
    simp only [convStep, onTTSCompleteStep]
    split
    · exact hinv pg
    · exact hinv pg

theorem runConv_counts (evs : List ConvEvent) :
    ∀ pg, getCount pg (runConv convInit evs).convCounts ≤ 1 := by
  have hgen : ∀ (s : ConvState), (∀ pg, getCount pg s.convCounts ≤ 1) →
      ∀ pg, getCount pg (runConv s evs).convCounts ≤ 1 := by
    induction evs with
    | nil => intro s h; exact h
    | cons e rest ih =>
      intro s h
      exact ih (convStep s e) (convStep_counts s e h)
  exact hgen convInit (by intro pg; simp [convInit, getCount])

theorem wellFormedPages_findPage (pages : List StoryPageData)
    (hwf : wellFormedPages pages = true) (p : Nat) (hp1 : 1 ≤ p)
    (hp2 : p ≤ pages.length) :
    ∃ d, findPage p pages = some d ∧ d.text ≠ "" := by
  have hmem : p - 1 ∈ List.range pages.length := List.mem_range.mpr (by omega)
  have h := List.all_eq_true.mp hwf _ hmem
  have hp : p - 1 + 1 = p := by omega
  rw [hp] at h
  cases hfind : findPage p pages with
  | none => rw [hfind] at h; simp at h
  | some d =>
    rw [hfind] at h
    exact ⟨d, rfl, by simpa using h⟩

/-! ## Claim theorems -/

/-- Claim C1 counterexample: the global audio mutex does not hold — and
for narration it fails even per component.  `processTTSQueue` starts chat
playback without stopping narration, and in `playPageAudio` the pause of
`audioRef.current` and `audio.play()` are separated by awaited fetch/blob
calls, so two overlapping invocations each pause nothing (the ref is
cleared during the other's fetch), both play, and the first element is
orphaned: after a chat start and two overlapping narration invocations,
three playable resources are live at once, and even two `stopStoryAudio`
calls cannot stop the orphaned element. -/
theorem C1_counterexample :
    ¬((runAudio audioInit
        [AudioEvent.chatStart 1, AudioEvent.storyInvoke 2, AudioEvent.storyInvoke 3,
         AudioEvent.storyPlayOk 2, AudioEvent.storyPlayOk 3]).playing.length ≤ 1) ∧
    countOwner AudioOwner.story (runAudio audioInit
        [AudioEvent.chatStart 1, AudioEvent.storyInvoke 2, AudioEvent.storyInvoke 3,
         AudioEvent.storyPlayOk 2, AudioEvent.storyPlayOk 3]).playing = 2 ∧
    (runAudio audioInit
        [AudioEvent.chatStart 1, AudioEvent.storyInvoke 2, AudioEvent.storyInvoke 3,
         AudioEvent.storyPlayOk 2, AudioEvent.storyPlayOk 3]).playing =
      [(AudioOwner.story, 3), (AudioOwner.story, 2), (AudioOwner.chat, 1)] ∧
    (AudioOwner.story, 2) ∈ (runAudio audioInit
        [AudioEvent.chatStart 1, AudioEvent.storyInvoke 2, AudioEvent.storyInvoke 3,
         AudioEvent.storyPlayOk 2, AudioEvent.storyPlayOk 3,
         AudioEvent.storyStop, AudioEvent.storyStop]).playing := by
  decide

/-- Claim C1 amended: no global audio mutex exists, and narration is not
mutually excluded under arbitrary interleavings either — a narration start
pauses only the element referenced by `audioRef` at invocation time, and
since that pause is separated from `audio.play()` by awaited fetches,
overlapping invocations can leave several narration elements live with the
older ones orphaned and unstoppable.  What does hold: the chat queue holds
at most one live resource at any instant under every interleaving, and
whenever narration invocations are serialized (no invocation occurs while
another invocation's fetch is still in flight) the panel also holds at
most one live narration resource, hence at most two resources in total. -/
theorem C1_amended_per_component :
    (∀ evs : List AudioEvent,
      countOwner AudioOwner.chat (runAudio audioInit evs).playing ≤ 1) ∧
    (∀ evs : List AudioEvent, serialNarrFrom audioInit evs = true →
      countOwner AudioOwner.story (runAudio audioInit evs).playing ≤ 1 ∧
      (runAudio audioInit evs).playing.length ≤ 2) := by
  constructor
  · intro evs
    exact (runAudio_chatInv audioInit chatInv_init evs).1
  · intro evs hser
    have hs := runAudio_serialInv audioInit serialInv_init evs hser
    have hc := (runAudio_chatInv audioInit chatInv_init evs).1
    refine ⟨hs.1, ?_⟩
    rw [length_eq_countOwner]
    have h1 := hs.1
    omega

/-- Claim C1 amended witness: a serialized run — narrate page audio 1,
play a chat reply, end narration, narrate audio 3 — satisfies the
serialization check and keeps at most one resource per component live. -/
theorem C1_amended_per_component_witness :
    countOwner AudioOwner.chat (runAudio audioInit
      [AudioEvent.storyInvoke 1, AudioEvent.storyPlayOk 1, AudioEvent.chatStart 2,
       AudioEvent.storyEnded 1, AudioEvent.storyInvoke 3,
       AudioEvent.storyPlayOk 3]).playing ≤ 1 ∧
    serialNarrFrom audioInit
      [AudioEvent.storyInvoke 1, AudioEvent.storyPlayOk 1, AudioEvent.chatStart 2,
       AudioEvent.storyEnded 1, AudioEvent.storyInvoke 3,
       AudioEvent.storyPlayOk 3] = true ∧
    countOwner AudioOwner.story (runAudio audioInit
      [AudioEvent.storyInvoke 1, AudioEvent.storyPlayOk 1, AudioEvent.chatStart 2,
       AudioEvent.storyEnded 1, AudioEvent.storyInvoke 3,
       AudioEvent.storyPlayOk 3]).playing ≤ 1 ∧
    (runAudio audioInit
      [AudioEvent.storyInvoke 1, AudioEvent.storyPlayOk 1, AudioEvent.chatStart 2,
       AudioEvent.storyEnded 1, AudioEvent.storyInvoke 3,
       AudioEvent.storyPlayOk 3]).playing.length ≤ 2 := by
  refine ⟨C1_amended_per_component.1
      [AudioEvent.storyInvoke 1, AudioEvent.storyPlayOk 1, AudioEvent.chatStart 2,
       AudioEvent.storyEnded 1, AudioEvent.storyInvoke 3, AudioEvent.storyPlayOk 3],
    by decide, ?_, ?_⟩
  · exact (C1_amended_per_component.2
      [AudioEvent.storyInvoke 1, AudioEvent.storyPlayOk 1, AudioEvent.chatStart 2,
       AudioEvent.storyEnded 1, AudioEvent.storyInvoke 3, AudioEvent.storyPlayOk 3]
      (by decide)).1
  · exact (C1_amended_per_component.2
      [AudioEvent.storyInvoke 1, AudioEvent.storyPlayOk 1, AudioEvent.chatStart 2,
       AudioEvent.storyEnded 1, AudioEvent.storyInvoke 3, AudioEvent.storyPlayOk 3]
      (by decide)).2

/-- Claim C2: end-of-narration routing — the final page requests the
closing remark seeded with the concatenation of all page texts and
advances no further; otherwise an even page opens a conversation on that
page; otherwise the story advances directly to the next page. -/
theorem C2_routing_policy (pages : List StoryPageData) (p : Nat)
    (hwf : wellFormedPages pages = true) (hp1 : 1 ≤ p) (hp2 : p ≤ pages.length) :
    routeOnPageAudioEnded p pages =
      (if p = pages.length then Route.requestClosing (joinPageTexts pages)
       else if p % 2 = 0 then Route.openConversation p
       else Route.advanceTo (p + 1)) := by
  unfold routeOnPageAudioEnded
  by_cases hlast : p = pages.length
  · simp [hlast]
  · simp only [if_neg hlast]
    by_cases heven : p % 2 = 0
    · obtain ⟨d, hfind, htext⟩ := wellFormedPages_findPage pages hwf p hp1 hp2
      simp [heven, hfind, htext]
    · have hnext : p + 1 ≤ pages.length := by omega
      simp [heven, hnext]

/-- Claim C2 witness: the 5-page story — narration end of page 2 opens a
conversation, of page 3 advances to page 4, and of page 5 requests the
closing remark seeded with all page texts. -/
theorem C2_routing_policy_witness :
    routeOnPageAudioEnded 2 fivePages = Route.openConversation 2 ∧
    routeOnPageAudioEnded 3 fivePages = Route.advanceTo 4 ∧
    routeOnPageAudioEnded 5 fivePages = Route.requestClosing "a b c d e" := by
  have h2 := C2_routing_policy fivePages 2 (by decide) (by decide) (by decide)
  have h3 := C2_routing_policy fivePages 3 (by decide) (by decide) (by decide)
  have h5 := C2_routing_policy fivePages 5 (by decide) (by decide) (by decide)
  exact ⟨h2.trans (by decide), h3.trans (by decide), h5.trans (by decide)⟩

/-- Claim C3: audio resolution for a page is pure and prioritized — the
page's own non-empty `audio_url` wins (normalized), then the cached URL for
the page number, else a needs-generation outcome (`none`, nothing is
played); normalization passes `http` URLs through, prepends the base to a
leading `/`, and prepends base plus `/` to any other relative path; the
example page resolves to `http://h:8000/cache/s1/c1/page_1.wav`. -/
theorem C3_resolution_priority :
    (∀ base u cache page, u ≠ "" →
      resolvePageAudio (some u) cache page base = some (normalizeAudioUrl base u)) ∧
    (∀ base cache page c, findUrl page cache = some c → c ≠ "" →
      resolvePageAudio none cache page base = some c ∧
      resolvePageAudio (some "") cache page base = some c) ∧
    (∀ base page, resolvePageAudio none [] page base = none ∧
      resolvePageAudio (some "") [] page base = none) ∧
    (∀ base u,
      (strStartsWith u "http" = true → normalizeAudioUrl base u = u) ∧
      (strStartsWith u "http" = false → strStartsWith u "/" = true →
        normalizeAudioUrl base u = base ++ u) ∧
      (strStartsWith u "http" = false → strStartsWith u "/" = false →
        normalizeAudioUrl base u = base ++ "/" ++ u)) ∧
    resolvePageAudio (some "/cache/s1/c1/page_1.wav") [] 1 "http://h:8000" =
      some "http://h:8000/cache/s1/c1/page_1.wav" := by
  refine ⟨?_, ?_, ?_, ?_, ?_⟩
  · intro base u cache page hu
    simp [resolvePageAudio, hu]
  · intro base cache page c hc hcne
    constructor <;> simp [resolvePageAudio, hc, hcne]
  · intro base page
    constructor <;> simp [resolvePageAudio, findUrl]
  · intro base u
    refine ⟨?_, ?_, ?_⟩
    · intro h; simp [normalizeAudioUrl, h]
    · intro h1 h2; simp [normalizeAudioUrl, h1, h2]
    · intro h1 h2; simp [normalizeAudioUrl, h1, h2]
  · decide

/-- Claim C3 witness: the general clauses instantiated at concrete inputs. -/
theorem C3_resolution_priority_witness :
    resolvePageAudio (some "clips/p2.wav") [] 2 "http://h:8000" =
      some (normalizeAudioUrl "http://h:8000" "clips/p2.wav") ∧
    resolvePageAudio none [(2, "http://h:8000/clips/p2.wav")] 2 "http://h:8000" =
      some "http://h:8000/clips/p2.wav" ∧
    normalizeAudioUrl "http://h:8000" "https://cdn/p.wav" = "https://cdn/p.wav" := by
  refine ⟨?_, ?_, ?_⟩
  · exact C3_resolution_priority.1 "http://h:8000" "clips/p2.wav" [] 2 (by decide)
  · exact (C3_resolution_priority.2.1 "http://h:8000" [(2, "http://h:8000/clips/p2.wav")] 2
      "http://h:8000/clips/p2.wav" (by decide) (by decide)).1
  · exact (C3_resolution_priority.2.2.2.1 "http://h:8000" "https://cdn/p.wav").1 (by decide)

/-- Claim C8: audio-URL cache merges are monotonic-additive — along any
sequence of local-file checks, remote server checks, generation results and
`audioMap` rebuilds, a page whose stored audio URL (in the pages array or
in the rebuilt map) is non-empty never regresses to an empty or missing
URL. -/
theorem C8_cache_monotone (base : String) (pages0 : List StoryPageData)
    (hnd : (pages0.map (·.page)).Nodup) (evs evs2 : List CacheEvent) (p : Nat) :
    (pageHasAudioAt p (runCache base ⟨pages0, []⟩ evs).pages = true →
      pageHasAudioAt p (runCache base (runCache base ⟨pages0, []⟩ evs) evs2).pages = true) ∧
    (∀ u, findUrl p (runCache base ⟨pages0, []⟩ evs).audioMap = some u → u ≠ "" →
      ∃ u2, findUrl p (runCache base (runCache base ⟨pages0, []⟩ evs) evs2).audioMap
          = some u2 ∧ u2 ≠ "") := by
  have hinit : CacheInv ⟨pages0, []⟩ := by
    intro p u hu
    exact Option.noConfusion hu
  obtain ⟨ha, hb, -, -⟩ := runCache_mono base evs ⟨pages0, []⟩ hnd hinit
  obtain ⟨-, -, hc, hd⟩ := runCache_mono base evs2 (runCache base ⟨pages0, []⟩ evs) ha hb
  exact ⟨hc p, fun u hu hne => hd p u hu hne⟩

/-- Claim C8 witness: a concrete run — the local check fills page 1, the
rebuild publishes it to the map, and a later server check plus rebuild
leaves page 1 non-empty. -/
theorem C8_cache_monotone_witness :
    pageHasAudioAt 1 (runCache "http://h:8000"
        (runCache "http://h:8000" ⟨[⟨1, "t", none⟩, ⟨2, "s", none⟩], []⟩
          [CacheEvent.localCheck [(1, "/a.wav")], CacheEvent.rebuildMap])
        [CacheEvent.serverCheck [(2, "b.wav")], CacheEvent.rebuildMap]).pages = true ∧
    (∃ u2, findUrl 1 (runCache "http://h:8000"
        (runCache "http://h:8000" ⟨[⟨1, "t", none⟩, ⟨2, "s", none⟩], []⟩
          [CacheEvent.localCheck [(1, "/a.wav")], CacheEvent.rebuildMap])
        [CacheEvent.serverCheck [(2, "b.wav")], CacheEvent.rebuildMap]).audioMap
        = some u2 ∧ u2 ≠ "") := by
  have h := C8_cache_monotone "http://h:8000" [⟨1, "t", none⟩, ⟨2, "s", none⟩]
    (by decide) [CacheEvent.localCheck [(1, "/a.wav")], CacheEvent.rebuildMap]
    [CacheEvent.serverCheck [(2, "b.wav")], CacheEvent.rebuildMap] 1
  exact ⟨h.1 (by decide), h.2 "http://h:8000/a.wav" (by decide) (by decide)⟩

/-- Claim C9 counterexample: `setCurrentPage` does not clamp — storing 0
leaves `currentPage` below 1, and storing 9 with a 5-page story leaves it
above `totalPages`. -/
theorem C9_counterexample :
    (setCurrentPage ⟨3⟩ 0).currentPage = 0 ∧
    ¬(1 ≤ (setCurrentPage ⟨3⟩ 0).currentPage) ∧
    (setCurrentPage ⟨1⟩ 9).currentPage = 9 ∧
    ¬((setCurrentPage ⟨1⟩ 9).currentPage ≤ 5) := by
  decide

/-- Claim C9 amended: `setCurrentPage` stores its argument verbatim; the
bounds invariant holds because every navigation operation guards its call —
`handleNextPage` advances only below `totalPages`, `handlePreviousPage`
goes back only above 1, and the selection/start handlers reset to page 1 —
so along every sequence of navigation operations `currentPage` stays in
`[1, totalPages]`. -/
theorem C9_amended_nav_bounds (total : Nat) (htotal : 1 ≤ total)
    (evs : List NavEvent) :
    1 ≤ (runNav total ⟨1⟩ evs).currentPage ∧
    (runNav total ⟨1⟩ evs).currentPage ≤ total :=
  runNav_bounds total htotal ⟨1⟩ (Nat.le_refl 1) htotal evs

/-- Claim C9 amended witness: a concrete navigation sequence on a 5-page
story stays within bounds. -/
theorem C9_amended_nav_bounds_witness :
    1 ≤ (runNav 5 ⟨1⟩
        [NavEvent.next, NavEvent.next, NavEvent.previous, NavEvent.reset,
         NavEvent.next]).currentPage ∧
    (runNav 5 ⟨1⟩
        [NavEvent.next, NavEvent.next, NavEvent.previous, NavEvent.reset,
         NavEvent.next]).currentPage ≤ 5 :=
  C9_amended_nav_bounds 5 (by decide)
    [NavEvent.next, NavEvent.next, NavEvent.previous, NavEvent.reset, NavEvent.next]

/-- Claim C4 counterexample: when the audio byte fetch for page 3 fails,
`playPageAudio` emits only `onPageAudioStart` — the `onPageAudioEnded`
event that would drive the routing never fires, so the story does not
advance to page 4. -/
theorem C4_counterexample :
    narrationRun 3 (some "/cache/s1/c1/page_3.wav") [] "http://h:8000" false true =
      [NarrEvent.pageAudioStart 3] ∧
    NarrEvent.pageAudioEnded 3 ∉
      narrationRun 3 (some "/cache/s1/c1/page_3.wav") [] "http://h:8000" false true := by
  decide

/-- Claim C4 amended: if fetching or playing a page's narration audio
fails, the page ends with no audio and no automatic retry (at most one
start is emitted), but no end-of-narration event is emitted at all, so the
routing never fires and the story stalls on that page instead of
advancing. -/
theorem C4_amended_failure_stalls (page : Nat) (pageAudioUrl : Option String)
    (cache : List (Nat × String)) (base : String) (fetchOk playCompletes : Bool)
    (hfail : fetchOk = false ∨ playCompletes = false) :
    NarrEvent.pageAudioEnded page ∉
      narrationRun page pageAudioUrl cache base fetchOk playCompletes ∧
    (narrationRun page pageAudioUrl cache base fetchOk playCompletes).count
      (NarrEvent.pageAudioStart page) ≤ 1 := by
  unfold narrationRun
  cases hres : resolvePageAudio pageAudioUrl cache page base with
  | none => simp
  | some u =>
    rcases hfail with h | h
    · subst h
      simp
    · subst h
      cases fetchOk <;> simp

/-- Claim C4 amended witness: the fetch-failure case at page 3. -/
theorem C4_amended_failure_stalls_witness :
    NarrEvent.pageAudioEnded 3 ∉
      narrationRun 3 (some "/cache/s1/c1/page_3.wav") [] "http://h:8000" false true ∧
    (narrationRun 3 (some "/cache/s1/c1/page_3.wav") [] "http://h:8000" false true).count
      (NarrEvent.pageAudioStart 3) ≤ 1 :=
  C4_amended_failure_stalls 3 (some "/cache/s1/c1/page_3.wav") [] "http://h:8000"
    false true (Or.inl rfl)

/-- Claim C5: on an even page with a pending question, the first
`submitAnswer` builds the acknowledge-plus-followup prompt and raises the
exchange count to 1; the second builds the acknowledge-plus-resume prompt,
raises the exchange count to 2, tears the conversation state down (counter
reset, question deleted) and records the reply message id so that exactly
the TTS completion of that reply triggers the advancement; the exchange
count never exceeds 2 along any event sequence. -/
theorem C5_two_exchange_conversation (s0 : ConvState) (page : Nat) (q : String)
    (a1 a2 t1 t2 : String) (r1 r2 : SendResult)
    (heven : page % 2 = 0) (hq : getQuestion page s0.questions = some q)
    (hcount : getCount page s0.convCounts = 0) (hclose : s0.closingMsgId = none)
    (hr1 : r1 = onSendMessage s0 page a1 (some t1))
    (hr2 : r2 = onSendMessage r1.state page a2 (some t2)) :
    r1.prompt = PromptKind.followup ∧
    r1.exchangeCount = some 1 ∧
    getCount page r1.state.convCounts = 1 ∧
    getQuestion page r1.state.questions = some q ∧
    r1.state.closingMsgId = none ∧
    r2.prompt = PromptKind.resumeStory ∧
    r2.exchangeCount = some 2 ∧
    getCount page r2.state.convCounts = 0 ∧
    getQuestion page r2.state.questions = none ∧
    r2.replyMsgId.isSome = true ∧
    r2.state.closingMsgId = r2.replyMsgId ∧
    (∀ mid, r2.state.closingMsgId = some mid →
      (onTTSCompleteStep r2.state mid).2 = true) ∧
    (∀ mid, r2.state.closingMsgId ≠ some mid →
      (onTTSCompleteStep r2.state mid).2 = false) ∧
    (∀ evs pg, getCount pg (runConv convInit evs).convCounts ≤ 1) ∧
    (∀ evs pg tx rp,
      (onSendMessage (runConv convInit evs) pg tx rp).exchangeCount.getD 0 ≤ 2) := by
  subst hr1
  have e1 : (onSendMessage s0 page a1 (some t1)).prompt = PromptKind.followup := by
    simp [onSendMessage, hq, heven, hcount]
  have e2 : (onSendMessage s0 page a1 (some t1)).exchangeCount = some 1 := by
    simp [onSendMessage, hq, heven, hcount]
  have e3 : (onSendMessage s0 page a1 (some t1)).state.convCounts =
      setAssoc page 1 s0.convCounts := by
    simp [onSendMessage, hq, heven, hcount]
  have e4 : (onSendMessage s0 page a1 (some t1)).state.questions = s0.questions := by
    simp [onSendMessage, hq, heven, hcount]
  have e5 : (onSendMessage s0 page a1 (some t1)).state.closingMsgId = none := by
    simp [onSendMessage, hq, heven, hcount, hclose]
  have hc1 : getCount page (onSendMessage s0 page a1 (some t1)).state.convCounts = 1 := by
    rw [e3, getCount_setAssoc]
    simp
  have hq1 : getQuestion page (onSendMessage s0 page a1 (some t1)).state.questions =
      some q := by
    rw [e4]
    exact hq
  subst hr2
  set s1 := (onSendMessage s0 page a1 (some t1)).state with hs1
  have f1 : (onSendMessage s1 page a2 (some t2)).prompt = PromptKind.resumeStory := by
    simp [onSendMessage, hq1, heven, hc1]
  have f2 : (onSendMessage s1 page a2 (some t2)).exchangeCount = some 2 := by
    simp [onSendMessage, hq1, heven, hc1]
  have f3 : (onSendMessage s1 page a2 (some t2)).state.convCounts =
      setAssoc page 0 s1.convCounts := by
    simp [onSendMessage, hq1, heven, hc1]
  have f4 : (onSendMessage s1 page a2 (some t2)).state.questions =
      removeAssoc page s1.questions := by
    simp [onSendMessage, hq1, heven, hc1]
  have f5 : (onSendMessage s1 page a2 (some t2)).state.closingMsgId =
      (onSendMessage s1 page a2 (some t2)).replyMsgId := by
    simp [onSendMessage, hq1, heven, hc1]
  have f6 : (onSendMessage s1 page a2 (some t2)).replyMsgId.isSome = true := by
    simp [onSendMessage, hq1, heven, hc1]
  refine ⟨e1, e2, hc1, hq1, e5, f1, f2, ?_, ?_, f6, f5, ?_, ?_, runConv_counts, ?_⟩
  · rw [f3, getCount_setAssoc]
    simp
  · rw [f4, getQuestion_removeAssoc_self]
  · intro mid hmid
    simp [onTTSCompleteStep, hmid]
  · intro mid hmid
    simp only [onTTSCompleteStep]
    rw [if_neg hmid]
  · intro evs pg tx rp
    rcases onSendMessage_exchangeCount (runConv convInit evs) pg tx rp with h | h
    · rw [h]; exact Nat.zero_le 2
    · rw [h]
      have := runConv_counts evs pg
      simp only [Option.getD_some]
      omega

/-- Claim C5 witness: question opened on page 2 with two answers — the
exchange count reaches 1 then 2, the teardown happens, and exactly the
tracked closing message triggers the advancement. -/
theorem C5_two_exchange_conversation_witness :
    (onSendMessage (convStep convInit (ConvEvent.questionOpened 2 "Why straw?"))
      2 "easy" (some "Good!")).prompt = PromptKind.followup ∧
    (onSendMessage (convStep convInit (ConvEvent.questionOpened 2 "Why straw?"))
      2 "easy" (some "Good!")).exchangeCount = some 1 ∧
    (onSendMessage (onSendMessage
        (convStep convInit (ConvEvent.questionOpened 2 "Why straw?"))
        2 "easy" (some "Good!")).state 2 "fun" (some "Nice, back to the story!")).exchangeCount
      = some 2 ∧
    getQuestion 2 (onSendMessage (onSendMessage
        (convStep convInit (ConvEvent.questionOpened 2 "Why straw?"))
        2 "easy" (some "Good!")).state 2 "fun" (some "Nice, back to the story!")).state.questions
      = none := by
  have h := C5_two_exchange_conversation
    (convStep convInit (ConvEvent.questionOpened 2 "Why straw?")) 2 "Why straw?"
    "easy" "fun" "Good!" "Nice, back to the story!"
    (onSendMessage (convStep convInit (ConvEvent.questionOpened 2 "Why straw?"))
      2 "easy" (some "Good!"))
    (onSendMessage (onSendMessage
        (convStep convInit (ConvEvent.questionOpened 2 "Why straw?"))
        2 "easy" (some "Good!")).state 2 "fun" (some "Nice, back to the story!"))
    (by decide) (by decide) (by decide) (by decide) rfl rfl
  exact ⟨h.1, h.2.1, h.2.2.2.2.2.2.1, h.2.2.2.2.2.2.2.2.1⟩

/-- Claim C6: the chat TTS queue is strict FIFO with idempotent enqueue —
enqueueing an id that is already in the queue or already processed is a
no-op; entries are processed one at a time in enqueue order; and for an
earlier entry `a` and a later entry `b` (with distinct ids, `a`
succeeding), the drain trace splits so that the playback end of `a` lies
strictly before the synthesis start of `b`. -/
theorem C6_fifo_idempotent :
    (∀ (s : TTSQueueState) (id : Nat) (text : String),
      ((id : Int) ≤ s.lastProcessedId ∨ inQueue id s.ttsQueue = true) →
      enqueueTTS s id text = s) ∧
    (∀ (ok : Nat → Bool) (q : List (Nat × String)),
      processedIds (drainTrace ok q) = q.map (·.1)) ∧
    (∀ (ok : Nat → Bool) (pre : List (Nat × String)) (a : Nat × String)
       (mid : List (Nat × String)) (b : Nat × String) (post : List (Nat × String)),
      (((pre ++ a :: mid) ++ b :: post).map (·.1)).Nodup →
      ok a.1 = true →
      ∃ l r, drainTrace ok ((pre ++ a :: mid) ++ b :: post) = l ++ r ∧
        QEvent.playEnd a.1 ∈ l ∧
        QEvent.synthStart b.1 ∈ r ∧
        QEvent.synthStart b.1 ∉ l) := by
  refine ⟨?_, ?_, ?_⟩
  · intro s id text h
    unfold enqueueTTS
    rcases h with h | h
    · rw [if_pos h]
    · by_cases h2 : (id : Int) ≤ s.lastProcessedId
      · rw [if_pos h2]
      · rw [if_neg h2, if_pos h]
  · exact processedIds_drainTrace
  · intro ok pre a mid b post hnd hok
    refine ⟨drainTrace ok (pre ++ a :: mid), drainTrace ok (b :: post),
      drainTrace_append ok (pre ++ a :: mid) (b :: post), ?_, ?_, ?_⟩
    · exact playEnd_mem_drainTrace ok (pre ++ a :: mid) a
        (List.mem_append.mpr (Or.inr (List.mem_cons_self a mid))) hok
    · exact List.mem_append.mpr (Or.inl (synthStart_self_mem_entryTrace ok b))
    · intro hmem
      have hin1 : b.1 ∈ (pre ++ a :: mid).map (·.1) :=
        (synthStart_mem_drainTrace ok (pre ++ a :: mid) b.1).mp hmem
      rw [List.map_append] at hnd
      have hdisj := (List.nodup_append.mp hnd).2.2
      exact hdisj hin1 (by simp)

/-- Claim C6 witness: the two-entry queue `(1, "a"); (2, "b")` — re-enqueue
of id 1 into the waiting queue is a no-op, both entries are processed in
enqueue order, and "a" finishes before "b" starts. -/
theorem C6_fifo_idempotent_witness :
    enqueueTTS ⟨[(1, "a"), (2, "b")], -1, false⟩ 1 "a" =
      ⟨[(1, "a"), (2, "b")], -1, false⟩ ∧
    enqueueTTS ⟨[], 1, false⟩ 1 "a" = ⟨[], 1, false⟩ ∧
    processedIds (drainTrace (fun _ => true) [(1, "a"), (2, "b")]) = [1, 2] ∧
    (∃ l r, drainTrace (fun _ => true) (([] ++ (1, "a") :: []) ++ (2, "b") :: []) = l ++ r ∧
      QEvent.playEnd 1 ∈ l ∧ QEvent.synthStart 2 ∈ r ∧ QEvent.synthStart 2 ∉ l) := by
  refine ⟨?_, ?_, ?_, ?_⟩
  · exact C6_fifo_idempotent.1 ⟨[(1, "a"), (2, "b")], -1, false⟩ 1 "a" (Or.inr (by decide))
  · exact C6_fifo_idempotent.1 ⟨[], 1, false⟩ 1 "a" (Or.inl (by decide))
  · exact (C6_fifo_idempotent.2.1 (fun _ => true) [(1, "a"), (2, "b")]).trans (by decide)
  · exact C6_fifo_idempotent.2.2 (fun _ => true) [] (1, "a") [] (2, "b") []
      (by decide) rfl

/-- Claim C7 counterexample: when synthesis of queue entry 1 fails, the
trace contains no `onTTSComplete` signal for it — the per-id completion
signal is not emitted on the failure path. -/
theorem C7_counterexample :
    drainTrace (fun _ => false) [(1, "a")] =
      [QEvent.synthStart 1, QEvent.synthFail 1] ∧
    QEvent.signal 1 ∉ drainTrace (fun _ => false) [(1, "a")] := by
  decide

/-- Claim C7 amended: a failing entry is marked processed with no audio and
the queue continues draining with the next entry, but its per-id completion
signal is NOT emitted — `onTTSComplete` is called only from the success
path (`audio.onended`), never from the catch branch. -/
theorem C7_amended_failure_handling :
    (∀ (ok : Nat → Bool) (pre : List (Nat × String)) (id : Nat) (text : String)
       (rest : List (Nat × String)), ok id = false →
      drainTrace ok (pre ++ (id, text) :: rest) =
        drainTrace ok pre ++
          QEvent.synthStart id :: QEvent.synthFail id :: drainTrace ok rest) ∧
    (∀ (ok : Nat → Bool) (q : List (Nat × String)),
      processedIds (drainTrace ok q) = q.map (·.1)) ∧
    (∀ (ok : Nat → Bool) (q : List (Nat × String)) (id : Nat),
      ok id = false → QEvent.signal id ∉ drainTrace ok q) ∧
    (∀ (ok : Nat → Bool) (q : List (Nat × String)) (id : Nat),
      ok id = false → QEvent.playStart id ∉ drainTrace ok q) := by
  refine ⟨?_, processedIds_drainTrace, signal_not_mem_drainTrace,
    playStart_not_mem_drainTrace⟩
  intro ok pre id text rest hfail
  rw [drainTrace_append]
  simp [drainTrace, entryTrace, hfail]

/-- Claim C7 amended witness: entry 2 of three fails — the trace skips to
entry 3, entry 2 is still marked processed, and no signal or playback
start is emitted for it. -/
theorem C7_amended_failure_handling_witness :
    drainTrace (fun i => decide (i ≠ 2)) [(1, "a"), (2, "b"), (3, "c")] =
      drainTrace (fun i => decide (i ≠ 2)) [(1, "a")] ++
        QEvent.synthStart 2 :: QEvent.synthFail 2 ::
          drainTrace (fun i => decide (i ≠ 2)) [(3, "c")] ∧
    processedIds (drainTrace (fun i => decide (i ≠ 2)) [(1, "a"), (2, "b"), (3, "c")]) =
      [1, 2, 3] ∧
    QEvent.signal 2 ∉ drainTrace (fun i => decide (i ≠ 2)) [(1, "a"), (2, "b"), (3, "c")] := by
  refine ⟨?_, ?_, ?_⟩
  · exact C7_amended_failure_handling.1 (fun i => decide (i ≠ 2)) [(1, "a")] 2 "b"
      [(3, "c")] (by decide)
  · exact (C7_amended_failure_handling.2.1 (fun i => decide (i ≠ 2))
      [(1, "a"), (2, "b"), (3, "c")]).trans (by decide)
  · exact C7_amended_failure_handling.2.2.1 (fun i => decide (i ≠ 2))
      [(1, "a"), (2, "b"), (3, "c")] 2 (by decide)

/-- Claim C10: `addMessage` appends exactly one message and returns its id,
which is one plus the maximum existing id (1 on an empty list); the
returned id is strictly greater than every stored id, hence uniquely
identifies the appended message, and successive calls return strictly
increasing ids. -/
theorem C10_addMessage_spec (msgs : List Message) (ty : MsgType) (text : String) :
    (addMessage msgs ty text).2 =
      msgs ++ [⟨(addMessage msgs ty text).1, ty, text⟩] ∧
    (msgs = [] → (addMessage msgs ty text).1 = 1) ∧
    (msgs ≠ [] → (addMessage msgs ty text).1 = maxMsgId msgs + 1 ∧
      (∀ m ∈ msgs, m.id ≤ maxMsgId msgs) ∧
      (∃ m ∈ msgs, m.id = maxMsgId msgs)) ∧
    (∀ m ∈ msgs, m.id < (addMessage msgs ty text).1) ∧
    (∀ m ∈ (addMessage msgs ty text).2,
      (m.id = (addMessage msgs ty text).1 ↔
        m = ⟨(addMessage msgs ty text).1, ty, text⟩)) ∧
    (∀ ty2 text2,
      (addMessage msgs ty text).1 < (addMessage (addMessage msgs ty text).2 ty2 text2).1) := by
  have hlt : ∀ m ∈ msgs, m.id < (addMessage msgs ty text).1 := by
    intro m hm
    rcases msgs with _ | ⟨x, xs⟩
    · simp at hm
    · have hle := le_maxMsgId (x :: xs) m hm
      have : (addMessage (x :: xs) ty text).1 = maxMsgId (x :: xs) + 1 := by
        simp [addMessage]
      omega
  refine ⟨rfl, ?_, ?_, hlt, ?_, ?_⟩
  · intro h
    subst h
    rfl
  · intro h
    refine ⟨?_, le_maxMsgId msgs, maxMsgId_attained msgs h⟩
    rcases msgs with _ | ⟨x, xs⟩
    · exact absurd rfl h
    · simp [addMessage]
  · intro m hm
    constructor
    · intro hid
      rcases List.mem_append.mp hm with hin | hin
      · exact absurd hid (Nat.ne_of_lt (hlt m hin))
      · exact List.mem_singleton.mp hin
    · intro he
      subst he
      rfl
  · intro ty2 text2
    have hmem : (⟨(addMessage msgs ty text).1, ty, text⟩ : Message) ∈
        (addMessage msgs ty text).2 := by
      simp [addMessage]
    have hle : (addMessage msgs ty text).1 ≤ maxMsgId (addMessage msgs ty text).2 :=
      le_maxMsgId (addMessage msgs ty text).2 _ hmem
    have hne : (addMessage msgs ty text).2 ≠ [] := by
      simp [addMessage]
    have h2 : (addMessage (addMessage msgs ty text).2 ty2 text2).1 =
        maxMsgId (addMessage msgs ty text).2 + 1 := by
      rcases he : (addMessage msgs ty text).2 with _ | ⟨x, xs⟩
      · exact absurd he hne
      · simp [addMessage]
    simp only [h2]
    omega

/-- Claim C10 witness: on a concrete two-message transcript the next id is
3 = 1 + max existing id. -/
theorem C10_addMessage_spec_witness :
    (addMessage [⟨1, MsgType.character, "hello"⟩, ⟨2, MsgType.user, "hi"⟩]
      MsgType.character "next").1 = 3 := by
  have h := (C10_addMessage_spec
      [⟨1, MsgType.character, "hello"⟩, ⟨2, MsgType.user, "hi"⟩]
      MsgType.character "next").2.2.1 (by decide)
  exact h.1.trans (by decide)

end Tallo

